import Mathlib

/-!
Verification development for the you-summary backend: a shallow embedding of
the job orchestration layer (src/lib/summarizeService.ts, src/lib/jobStore /
src/lib/jobStore.local, src/lib/geminiClient, src/lib/supadataClient,
src/lib/validate, src/lib/config) and the HTTP route handlers under
src/app/api/v1/summaries.  TypeScript values are modelled as follows:
strings are Lean `String` (or `List Char` where character-level scanning is
needed), JS numbers used as 32-bit integers are `Int` with explicit wrap-around,
`undefined`-able fields are `Option`, the key/value store is an association list
keyed by the `job:{id}` / `cache:{fingerprint}` strings, and each external call
(Supadata transcript request/poll, Gemini generation) is an oracle argument
giving the value that call returned.  `Date().toISOString()` results are
threaded as an explicit `now : String` argument.
-/

set_option autoImplicit false

namespace YouSummary

/-- Model of `JobStatus` from src/lib/types.ts: 'processing' | 'completed' | 'failed' | 'cancelled'. -/
inductive JobStatus where
  | processing | completed | failed | cancelled
deriving DecidableEq, Repr

/-- Model of `JobStage` from src/lib/types.ts: 'transcript' | 'summarize'. -/
inductive JobStage where
  | transcript | summarize
deriving DecidableEq, Repr

/-- Model of `SummaryLength` from src/lib/types.ts. -/
inductive SummaryLength where
  | short | standard | detailed
deriving DecidableEq, Repr

/-- Model of `SummaryFormat` from src/lib/types.ts. -/
inductive SummaryFormat where
  | bullets | paragraph
deriving DecidableEq, Repr

/-- The `options` object inside `JobInput` (all fields optional). -/
structure JobOptions where
  length : Option SummaryLength := none
  format : Option SummaryFormat := none
  transcriptMode : Option String := none
deriving DecidableEq, Repr

/-- Model of `JobInput` from src/lib/types.ts. -/
structure JobInput where
  title : Option String := none
  url : String
  lang : Option String := none
  options : Option JobOptions := none
deriving DecidableEq, Repr

/-- Model of `SupadataInfo` from src/lib/types.ts. -/
structure SupadataInfo where
  mode : String
  jobId : Option String := none
  transcriptLang : Option String := none
  availableLangs : Option (List String) := none
deriving DecidableEq, Repr

/-- Model of `SummaryResult` from src/lib/types.ts.  `confidence` is a JS number,
modelled as a rational so that the zod `.int()` check is expressible. -/
structure SummaryResult where
  summary : String
  keyPoints : List String
  confidence : Rat
  model : String
deriving DecidableEq, Repr

/-- Model of `JobError` from src/lib/types.ts; `provider` is kept as the literal string
('supadata' | 'gemini' | 'backend') that is serialized into the store. -/
structure JobError where
  code : String
  message : String
  provider : Option String := none
deriving DecidableEq, Repr

/-- Model of `Job` from src/lib/types.ts, plus the untyped `_transcript` property that
summarizeService.ts attaches via `as Job & { _transcript?: string }`: at
runtime the object stored under `job:{id}` carries this field, so the model
keeps it as part of the record. -/
structure Job where
  id : String
  status : JobStatus
  stage : JobStage
  createdAt : String
  updatedAt : String
  input : JobInput
  supadata : SupadataInfo
  result : Option SummaryResult := none
  error : Option JobError := none
  _transcript : Option String := none
deriving DecidableEq, Repr

/-- Model of `CacheEntry` (src/lib/types.ts / jobStore). -/
structure CacheEntry where
  result : SummaryResult
  metaTranscriptLang : Option String := none
  metaAvailableLangs : Option (List String) := none
  createdAt : String
deriving DecidableEq, Repr

/-- The key/value store: the `job:*` keyspace and the `cache:*` keyspace.
Both jobStore backends (Upstash Redis and the in-memory Map) behave as a
per-key last-writer-wins map; TTL expiry is not modelled. -/
structure Store where
  jobs : List (String × Job) := []
  cache : List (String × CacheEntry) := []
deriving DecidableEq, Repr

/-- Association-list lookup (first binding wins, as in a map). -/
def assocGet {α : Type} (k : String) : List (String × α) → Option α
  | [] => none
  | (k', v) :: rest => if k' = k then some v else assocGet k rest

/-- Association-list overwrite-or-insert (a map `set`). -/
def assocSet {α : Type} (k : String) (v : α) : List (String × α) → List (String × α)
  | [] => [(k, v)]
  | (k', v') :: rest => if k' = k then (k, v) :: rest else (k', v') :: assocSet k v rest

/-- Model of `getJob` (jobStore.ts / jobStore.local.ts): read `job:{id}`. -/
def getJob (store : Store) (jobId : String) : Option Job :=
  assocGet ("job:" ++ jobId) store.jobs

/-- Model of `saveJob` (jobStore.ts / jobStore.local.ts): write the WHOLE job record,
including any `_transcript` property it carries, under `job:{id}`. -/
def saveJob (store : Store) (job : Job) : Store :=
  { store with jobs := assocSet ("job:" ++ job.id) job store.jobs }

/-- A `Partial<Job>` value as passed to `updateJob`: exactly the fields that
some caller of `updateJob` ever supplies.  `none` means the field is absent
from the update object, so the stored value is kept. -/
structure JobUpdates where
  status : Option JobStatus := none
  stage : Option JobStage := none
  supadata : Option SupadataInfo := none
  result : Option SummaryResult := none
  error : Option JobError := none
deriving DecidableEq, Repr

/-- Model of `{...job, ...updates, updatedAt: new Date().toISOString()}`. -/
def applyUpdates (j : Job) (u : JobUpdates) (now : String) : Job :=
  { j with
    status := u.status.getD j.status
    stage := u.stage.getD j.stage
    supadata := u.supadata.getD j.supadata
    result := match u.result with | some r => some r | none => j.result
    error := match u.error with | some e => some e | none => j.error
    updatedAt := now }

/-- Model of `updateJob` (jobStore.ts / jobStore.local.ts): read-modify-write merge of a
partial update; a no-op returning `none` when the job does not exist. -/
def updateJob (store : Store) (jobId : String) (u : JobUpdates) (now : String) :
    Store × Option Job :=
  match getJob store jobId with
  | none => (store, none)
  | some j =>
      let j' := applyUpdates j u now
      (saveJob store j', some j')

/-- JS truthiness of an optional string (`undefined` and `''` are falsy). -/
def optTruthy : Option String → Bool
  | none => false
  | some s => !s.isEmpty

/-- Model of `cancelJob` (summarizeService.ts lines 266-282).  Note the guard checks
only `completed` and `cancelled` — a `failed` job passes it. -/
def cancelJob (store : Store) (jobId : String) (now : String) : Store × Bool :=
  match getJob store jobId with
  | none => (store, false)
  | some job =>
      if job.status = .completed ∨ job.status = .cancelled then (store, false)
      else ((updateJob store jobId { status := some .cancelled } now).1, true)

/-! ## Configuration (src/lib/config.ts)

Only the parts the claims touch.  `transcript.maxChars` comes from the
`MAX_TRANSCRIPT_CHARS` environment variable (default '120000');
`chunkMinChars` and `chunkMaxChars` are hard-coded to 12000 / 18000.
`gemini.model` defaults to 'gemini-2.5-flash-lite'. -/

structure TranscriptConfig where
  maxChars : Nat
  chunkMinChars : Nat
  chunkMaxChars : Nat
deriving DecidableEq, Repr

structure LengthWindow where
  min : Nat
  max : Nat
deriving DecidableEq, Repr

structure Config where
  geminiModel : String
  transcript : TranscriptConfig
  summaryShort : LengthWindow
  summaryStandard : LengthWindow
  summaryDetailed : LengthWindow
  keyPointsMin : Nat
  keyPointsMax : Nat
  confidenceMin : Int
  confidenceMax : Int
deriving DecidableEq, Repr

/-- The `config` object of src/lib/config.ts with every environment variable
at its default. -/
def config : Config :=
  { geminiModel := "gemini-2.5-flash-lite"
    transcript := { maxChars := 120000, chunkMinChars := 12000, chunkMaxChars := 18000 }
    summaryShort := { min := 600, max := 1200 }
    summaryStandard := { min := 1200, max := 2200 }
    summaryDetailed := { min := 2200, max := 4000 }
    keyPointsMin := 5
    keyPointsMax := 9
    confidenceMin := 0
    confidenceMax := 100 }

/-- Model of `config.summaryLength[length]` lookup. -/
def summaryWindow : SummaryLength → LengthWindow
  | .short => config.summaryShort
  | .standard => config.summaryStandard
  | .detailed => config.summaryDetailed

/-! ## Sentence splitting and chunking (geminiClient.ts `chunkTranscript`)

The source splits with `transcript.split(/(?<=[.!?])\s+/)`: the string is cut
at every maximal whitespace run that is immediately preceded by `.`, `!` or
`?`; the whitespace is consumed.  `splitAux` is the left-to-right scan
realising exactly that semantics (`skip` marks that we are inside the
whitespace run of a match), written structurally so that it evaluates by
kernel reduction. -/

/-- JS `\s` for the characters this development uses (space, tab, LF, VT, FF,
CR, NBSP). -/
def isJsWs (c : Char) : Bool :=
  c = ' ' ∨ c = '\t' ∨ c = '\n' ∨ c = '\x0b' ∨ c = '\x0c' ∨ c = '\r' ∨ c = ' '

/-- End-of-sentence punctuation of the split regex: `[.!?]`. -/
def isSentEnd (c : Char) : Bool :=
  c = '.' ∨ c = '!' ∨ c = '?'

/-- Does the (reversed) current sentence end in `[.!?]`?  (`cur` stores the
sentence reversed, so its head is the previously consumed character.) -/
def sentEndHead : List Char → Bool
  | [] => false
  | p :: _ => isSentEnd p

/-- The split scan.  `cur` is the current sentence reversed; `skip = true`
while consuming the whitespace run of a match. -/
def splitAux (cur : List Char) (skip : Bool) : List Char → List (List Char)
  | [] => [cur.reverse]
  | c :: rest =>
      if skip then
        if isJsWs c then splitAux cur true rest
        else splitAux [c] false rest
      else if sentEndHead cur ∧ isJsWs c then
        cur.reverse :: splitAux [] true rest
      else
        splitAux (c :: cur) false rest

/-- Model of `transcript.split(/(?<=[.!?])\s+/)`. -/
def splitSentences (t : List Char) : List (List Char) :=
  splitAux [] false t

/-- JS `String.prototype.trim` (whitespace stripped from both ends). -/
def trimL (l : List Char) : List Char := l.dropWhile isJsWs

def trimR (l : List Char) : List Char := (l.reverse.dropWhile isJsWs).reverse

def trim (l : List Char) : List Char := trimR (trimL l)

/-- Model of `currentChunk + (currentChunk ? ' ' : '') + sentence`. -/
def joinStep (cur s : List Char) : List Char :=
  if cur.isEmpty then s else cur ++ ' ' :: s

/-- The `for (const sentence of sentences)` loop of `chunkTranscript`,
including the final `if (currentChunk.trim()) chunks.push(currentChunk.trim())`. -/
def chunkGo (minC maxC : Nat) : List (List Char) → List Char → List (List Char)
  | [], cur => if (trim cur).isEmpty then [] else [trim cur]
  | s :: rest, cur =>
      if maxC < cur.length + s.length ∧ minC ≤ cur.length then
        trim cur :: chunkGo minC maxC rest s
      else
        chunkGo minC maxC rest (joinStep cur s)

/-- The same loop with the pushed chunks left untrimmed (the accumulated
sentence groups); used to state which length the greedy rule guaranteed
*before* `.trim()` shrank a chunk. -/
def chunkPre (minC maxC : Nat) : List (List Char) → List Char → List (List Char)
  | [], cur => if (trim cur).isEmpty then [] else [cur]
  | s :: rest, cur =>
      if maxC < cur.length + s.length ∧ minC ≤ cur.length then
        cur :: chunkPre minC maxC rest s
      else
        chunkPre minC maxC rest (joinStep cur s)

/-- Model of `chunkTranscript` (geminiClient.ts lines 108-133), reading the thresholds
from `config.transcript` as the source does. -/
def chunkTranscript (t : List Char) : List (List Char) :=
  if t.length ≤ config.transcript.maxChars then [t]
  else chunkGo config.transcript.chunkMinChars config.transcript.chunkMaxChars
    (splitSentences t) []

/-- Model of `intercalate " "` on character lists: how the chunks (resp. the sentences)
are glued back together when stating coverage. -/
def joinSp : List (List Char) → List Char
  | [] => []
  | [a] => a
  | a :: l => a ++ ' ' :: joinSp l

/-- Model of `flatten (map (' ' :: ·) l)`: the tail part of `joinSp`. -/
def preSp : List (List Char) → List Char
  | [] => []
  | a :: l => ' ' :: (a ++ preSp l)

/-- Length of the longest sentence of a list. -/
def maxLen : List (List Char) → Nat
  | [] => 0
  | s :: rest => Nat.max s.length (maxLen rest)

/-! ## Cache fingerprint (jobStore.ts `generateCacheKey`, lines 413-426)

`JSON.stringify(options)` serializes the record in property insertion order;
options records in this system hold string values (the three enums), so the
record is modelled as an insertion-ordered list of string pairs.  The hash is
the JS `((hash << 5) - hash) + char; hash = hash & hash` loop: every bitwise
operator coerces to a signed 32-bit integer. -/

/-- An options record: keys with string values in insertion order. -/
def OptionsRec := List (String × String)
deriving DecidableEq, Repr

/-- Wrap an integer into the signed 32-bit range, as JS `| 0` / `&` do. -/
def toInt32 (x : Int) : Int :=
  (x + 2 ^ 31) % 2 ^ 32 - 2 ^ 31

/-- One iteration of the hash loop:
`hash = (((hash << 5) - hash) + charCode) & ...`. -/
def jsHashStep (h : Int) (c : Char) : Int :=
  toInt32 (toInt32 (h * 32) - h + c.toNat)

/-- The whole loop over the combined string, starting from `hash = 0`. -/
def jsHash (l : List Char) : Int :=
  l.foldl jsHashStep 0

/-- Model of `JSON.stringify` of a string-valued record (no escaping is needed for the
characters used here). -/
def jsonStringifyRec (o : OptionsRec) : String :=
  "\x7b" ++ String.intercalate "," (o.map fun kv => "\"" ++ kv.1 ++ "\":\"" ++ kv.2 ++ "\"") ++ "\x7d"

/-- Model of `options ? JSON.stringify(options) : ''`. -/
def optionsStr : Option OptionsRec → String
  | none => ""
  | some o => jsonStringifyRec o

/-- Model of `generateCacheKey` (jobStore.ts lines 413-426). -/
def generateCacheKey (url : String) (options : Option OptionsRec) : String :=
  "cache:" ++ (jsHash (url ++ ":" ++ optionsStr options).data).natAbs.repr

/-! ## Validation (src/lib/validate.ts) -/

/-- A decoded Gemini JSON payload that passed zod's structural typing:
`summary` string, `keyPoints` string array, `confidence` number. -/
structure GeminiParsed where
  summary : String
  keyPoints : List String
  confidence : Rat
deriving DecidableEq, Repr

/-- Model of `geminiResponseSchema` / `validateGeminiResponse` (validate.ts lines
150-170): keyPoints count in `[config.keyPoints.min, config.keyPoints.max]`,
confidence an integer in `[config.confidence.min, config.confidence.max]`.
The schema places no bound on `summary` and no non-emptiness condition on the
individual key points. -/
def validateGeminiResponse (p : GeminiParsed) : Bool :=
  config.keyPointsMin ≤ p.keyPoints.length ∧ p.keyPoints.length ≤ config.keyPointsMax ∧
    p.confidence.den = 1 ∧ config.confidenceMin ≤ p.confidence.num ∧
    p.confidence.num ≤ config.confidenceMax

/-! ### `sanitizeErrorMessage` (validate.ts lines 172-178)

`message.replace(/api[_-]?key[=:]\s*[^\s,}]+/gi, 'API_KEY')` followed by
`.replace(/https?:\/\/[^\s]+/g, '[URL]')`, modelled as left-to-right scans.
The recursions are fuelled by the input length so that they stay structural
(the fuel never runs out because every step consumes at least one character). -/

def toLowerAscii (c : Char) : Char :=
  if 'A' ≤ c ∧ c ≤ 'Z' then Char.ofNat (c.toNat + 32) else c

/-- Strip a lowercase pattern case-insensitively from the front. -/
def stripCI : List Char → List Char → Option (List Char)
  | [], l => some l
  | _ :: _, [] => none
  | p :: ps, c :: cs => if toLowerAscii c = p then stripCI ps cs else none

/-- A character allowed inside the `[^\s,}]+` tail of the api-key pattern. -/
def apiKeyTailChar (c : Char) : Bool :=
  !isJsWs c ∧ c ≠ ',' ∧ c ≠ '}'

/-- Try to match `api[_-]?key[=:]\s*[^\s,}]+` at the current position,
returning the rest of the input after the match. -/
def matchApiKey (l : List Char) : Option (List Char) :=
  match stripCI ['a', 'p', 'i'] l with
  | none => none
  | some r1 =>
      let r2 := match r1 with
        | c :: cs => if c = '_' ∨ c = '-' then cs else r1
        | [] => r1
      match stripCI ['k', 'e', 'y'] r2 with
      | none => none
      | some r3 =>
          match r3 with
          | c :: cs =>
              if c = '=' ∨ c = ':' then
                let r4 := cs.dropWhile isJsWs
                let run := r4.takeWhile apiKeyTailChar
                if run.isEmpty then none else some (r4.dropWhile apiKeyTailChar)
              else none
          | [] => none

/-- Try to match `https?:\/\/[^\s]+` (case-sensitive) at the current position. -/
def matchUrlAt (l : List Char) : Option (List Char) :=
  match l with
  | 'h' :: 't' :: 't' :: 'p' :: r1 =>
      let r2 := match r1 with
        | 's' :: cs => cs
        | _ => r1
      match r2 with
      | ':' :: '/' :: '/' :: r3 =>
          let run := r3.takeWhile (fun c => !isJsWs c)
          if run.isEmpty then none
          else some (r3.dropWhile (fun c => !isJsWs c))
      | _ => none
  | _ => none

/-- Global replace driven by a position matcher. -/
def replaceScan (m : List Char → Option (List Char)) (repl : List Char) :
    Nat → List Char → List Char
  | 0, l => l
  | _ + 1, [] => []
  | fuel + 1, c :: cs =>
      match m (c :: cs) with
      | some rest => repl ++ replaceScan m repl fuel rest
      | none => c :: replaceScan m repl fuel cs

/-- Model of `sanitizeErrorMessage` (validate.ts lines 172-178). -/
def sanitizeErrorMessage (message : String) : String :=
  let pass1 := replaceScan matchApiKey "API_KEY".data message.data.length message.data
  String.mk (replaceScan matchUrlAt "[URL]".data pass1.length pass1)

/-! ## Provider clients (src/lib/supadataClient.ts, src/lib/geminiClient.ts)

The wire calls are opaque capabilities; each is modelled by the value it
produced.  A failed call carries the `SupadataError` / `GeminiError` the
client constructed (message, code, HTTP status). -/

/-- Data of a thrown `SupadataError`. -/
structure SupadataFault where
  message : String
  code : String
  statusCode : Nat
deriving DecidableEq, Repr

/-- Data of a thrown `GeminiError`. -/
structure GeminiFault where
  message : String
  code : String
  statusCode : Nat
deriving DecidableEq, Repr

/-- Result type of `getTranscript` (supadataClient.ts lines 23-145). -/
structure TranscriptReqResult where
  content : Option String := none
  lang : Option String := none
  availableLangs : Option (List String) := none
  jobId : Option String := none
deriving DecidableEq, Repr

/-- Result type of `getTranscriptJob` (supadataClient.ts lines 148-197). -/
structure TranscriptJobResult where
  status : String
  content : Option String := none
  lang : Option String := none
  availableLangs : Option (List String) := none
deriving DecidableEq, Repr

/-- Model of `mapSupadataError` (supadataClient.ts lines 241-253). -/
def mapSupadataError (e : SupadataFault) : String :=
  if e.code = "INVALID_REQUEST" then "SUPADATA_INVALID_REQUEST"
  else if e.code = "VIDEO_UNAVAILABLE" then "VIDEO_UNAVAILABLE"
  else if e.code = "TRANSCRIPT_UNAVAILABLE" then "TRANSCRIPT_UNAVAILABLE"
  else if e.code = "NO_JOB_ID" then "SUPADATA_UPSTREAM_ERROR"
  else if e.code = "JOB_NOT_FOUND" then "SUPADATA_UPSTREAM_ERROR"
  else if e.code = "NETWORK_ERROR" then "SUPADATA_UPSTREAM_ERROR"
  else if e.code = "UNKNOWN_ERROR" then "SUPADATA_UPSTREAM_ERROR"
  else "SUPADATA_UPSTREAM_ERROR"

/-- Model of `mapGeminiError` (geminiClient.ts lines 260-271). -/
def mapGeminiError (e : GeminiFault) : String :=
  if e.code = "AUTH" then "GEMINI_AUTH"
  else if e.code = "QUOTA" then "GEMINI_QUOTA"
  else if e.code = "NETWORK_ERROR" then "GEMINI_UPSTREAM_ERROR"
  else if e.code = "INVALID_JSON" then "GEMINI_INVALID_RESPONSE"
  else if e.code = "INVALID_RESPONSE" then "GEMINI_INVALID_RESPONSE"
  else if e.code = "UNKNOWN_ERROR" then "GEMINI_UPSTREAM_ERROR"
  else "GEMINI_UPSTREAM_ERROR"

/-- An exception propagating out of the job-processing `try` block:
a `SupadataError`, a `GeminiError`, or a plain `Error` with a message. -/
inductive ThrownE where
  | supa (e : SupadataFault)
  | gem (e : GeminiFault)
  | plain (message : String)
deriving DecidableEq, Repr

/-! ### `summarizeTranscript` (geminiClient.ts lines 136-172)

The Gemini generation call is the oracle
`port : List Char → SummaryLength → SummaryFormat → GeminiParsed`, giving the
structurally-typed JSON each `generateText` + parse produced.  `summarizeChunk`
applies `validateGeminiResponse` to it exactly as the source does; the model
additionally records the list of calls issued (text, length, format), which is
what claim C9 speaks about. -/

/-- A call issued to the summarizer port. -/
structure GeminiCall where
  text : List Char
  length : SummaryLength
  format : SummaryFormat
deriving DecidableEq, Repr

/-- The summarizer oracle: what the model answers each prompt with. -/
def GeminiPort := List Char → SummaryLength → SummaryFormat → GeminiParsed

/-- The `GeminiError` summarizeChunk raises when validation fails. -/
def invalidRespFault : GeminiFault :=
  { message := "Invalid Gemini response", code := "INVALID_RESPONSE", statusCode := 500 }

/-- Model of `summarizeChunk` (geminiClient.ts lines 175-257): issue the call, then
validate; a schema violation raises `GeminiError('INVALID_RESPONSE')`. -/
def summarizeChunk (port : GeminiPort) (chunk : List Char) (length : SummaryLength)
    (format : SummaryFormat) : Except GeminiFault GeminiParsed :=
  let p := port chunk length format
  if validateGeminiResponse p then .ok p
  else .error invalidRespFault

/-- The `for (const chunk of chunks)` map loop: summarize each chunk with
`length='standard', format='paragraph'`, collecting the summaries.  Returns the
calls actually issued (a failing call is still issued before it throws). -/
def summarizeMapLoop (port : GeminiPort) :
    List (List Char) → List GeminiCall × Except GeminiFault (List String)
  | [] => ([], .ok [])
  | c :: rest =>
      let call : GeminiCall := { text := c, length := .standard, format := .paragraph }
      match summarizeChunk port c .standard .paragraph with
      | .error e => ([call], .error e)
      | .ok p =>
          let (calls, r) := summarizeMapLoop port rest
          (call :: calls, r.map (p.summary :: ·))

/-- Model of `summarizeTranscript` (geminiClient.ts lines 136-172), with the issued
call list exposed.  A single chunk is summarized directly with the requested
length/format; otherwise the map loop runs and the blank-line-joined chunk
summaries are reduced once with the requested length/format. -/
def summarizeTranscript (port : GeminiPort) (transcript : List Char)
    (length : SummaryLength) (format : SummaryFormat) :
    List GeminiCall × Except GeminiFault GeminiParsed :=
  let chunks := chunkTranscript transcript
  if chunks.length = 1 then
    ([{ text := chunks.headI, length := length, format := format }],
      summarizeChunk port chunks.headI length format)
  else
    let (calls, r) := summarizeMapLoop port chunks
    match r with
    | .error e => (calls, .error e)
    | .ok summaries =>
        let aggregated := (String.intercalate "\n\n" summaries).data
        (calls ++ [{ text := aggregated, length := length, format := format }],
          summarizeChunk port aggregated length format)

/-! ## The progress driver (src/lib/summarizeService.ts)

`processJob` is cut at its `await` points so that interleavings with a
concurrent `cancelJob` can be expressed: the entry check reads a snapshot,
the external call returns an oracle value, and the continuation functions
below perform the writes the source performs after that call, against
whatever the store contains at that moment. -/

/-- Writes of `processTranscriptStage` after `getTranscriptJob` returned `r`
(summarizeService.ts lines 124-164).  `snapshot` is the job object the stage
was entered with. -/
def transcriptPollCont (snapshot : Job) (r : TranscriptJobResult) (now : String)
    (store : Store) : Except ThrownE Store :=
  if r.status = "queued" ∨ r.status = "active" then .ok store
  else if r.status = "failed" then
    .error (.supa { message := "Transcript job failed", code := "JOB_FAILED", statusCode := 500 })
  else if r.status = "completed" ∧ optTruthy r.content then
    let supadata' := { snapshot.supadata with
      transcriptLang := r.lang, availableLangs := r.availableLangs }
    let store1 := (updateJob store snapshot.id
      { stage := some .summarize, supadata := some supadata' } now).1
    let store2 := saveJob store1
      { snapshot with stage := .summarize, supadata := supadata', _transcript := r.content }
    .ok store2
  else .ok store

/-- Writes of `processTranscriptStage` after `getTranscript` returned `r`
(summarizeService.ts lines 167-204). -/
def transcriptReqCont (snapshot : Job) (r : TranscriptReqResult) (now : String)
    (store : Store) : Except ThrownE Store :=
  if optTruthy r.jobId then
    .ok (updateJob store snapshot.id
      { supadata := some { snapshot.supadata with jobId := r.jobId } } now).1
  else if optTruthy r.content then
    let supadata' := { snapshot.supadata with
      transcriptLang := r.lang, availableLangs := r.availableLangs }
    let store1 := (updateJob store snapshot.id
      { stage := some .summarize, supadata := some supadata' } now).1
    let store2 := saveJob store1
      { snapshot with stage := .summarize, supadata := supadata', _transcript := r.content }
    .ok store2
  else .ok store

/-- Model of `processTranscriptStage` (summarizeService.ts lines 117-206): poll when a
Supadata job handle exists, otherwise request a transcript.  `pollRes` /
`reqRes` are the outcomes of those external calls. -/
def processTranscriptStage (pollRes : Except SupadataFault TranscriptJobResult)
    (reqRes : Except SupadataFault TranscriptReqResult) (snapshot : Job)
    (now : String) (store : Store) : Except ThrownE Store :=
  if (snapshot.supadata.jobId).isSome then
    match pollRes with
    | .error e => .error (.supa e)
    | .ok r => transcriptPollCont snapshot r now store
  else
    match reqRes with
    | .error e => .error (.supa e)
    | .ok r => transcriptReqCont snapshot r now store

/-- Serialize a `JobOptions` the way zod built the object (length, format,
transcriptMode in declaration order, present keys only); used for the
`job.input.options || {}` argument of `saveToCache`. -/
def lengthStr : SummaryLength → String
  | .short => "short" | .standard => "standard" | .detailed => "detailed"

def formatStr : SummaryFormat → String
  | .bullets => "bullets" | .paragraph => "paragraph"

def optionsToRec (o : Option JobOptions) : OptionsRec :=
  match o with
  | none => []
  | some o =>
      (match o.length with | some v => [("length", lengthStr v)] | none => []) ++
      (match o.format with | some v => [("format", formatStr v)] | none => []) ++
      (match o.transcriptMode with | some v => [("transcriptMode", v)] | none => [])

/-- Model of `saveToCache` (jobStore.ts lines 503-518): write the entry under the
fingerprint of `(url, options)`. -/
def saveToCache (store : Store) (url : String) (options : Option OptionsRec)
    (entry : CacheEntry) : Store :=
  { store with cache := assocSet (generateCacheKey url options) entry store.cache }

/-- Model of `processSummarizeStage` (summarizeService.ts lines 209-263): re-read the
job, take `_transcript`, summarize, store the completed result, write the
cache, then `saveJob` a snapshot-based record. -/
def processSummarizeStage (port : GeminiPort) (snapshot : Job) (now : String)
    (store : Store) : Except ThrownE Store :=
  match getJob store snapshot.id with
  | none => .error (.plain "Transcript not found for summarization")
  | some jt =>
      if !optTruthy jt._transcript then
        .error (.plain "Transcript not found for summarization")
      else
        let transcript := (jt._transcript).getD ""
        let length := ((snapshot.input.options).bind (·.length)).getD .standard
        let format := ((snapshot.input.options).bind (·.format)).getD .bullets
        match (summarizeTranscript port transcript.data length format).2 with
        | .error e => .error (.gem e)
        | .ok p =>
            let summaryResult : SummaryResult :=
              { summary := p.summary, keyPoints := p.keyPoints,
                confidence := p.confidence, model := config.geminiModel }
            let store1 := (updateJob store snapshot.id
              { status := some .completed, result := some summaryResult } now).1
            let store2 := saveToCache store1 snapshot.input.url
              (some (optionsToRec snapshot.input.options))
              { result := summaryResult,
                metaTranscriptLang := snapshot.supadata.transcriptLang,
                metaAvailableLangs := snapshot.supadata.availableLangs,
                createdAt := now }
            let store3 := saveJob store2
              { snapshot with status := .completed, result := some summaryResult }
            .ok store3

/-- The `catch` block of `processJob` (summarizeService.ts lines 80-113):
classify the exception, mark the job failed, re-read it. -/
def processJobCatch (jobId : String) (e : ThrownE) (now : String) (store : Store) :
    Store × Except String Job :=
  let (errorCode, errorMessage, provider) :=
    match e with
    | .supa s => (mapSupadataError s, s.message, "supadata")
    | .gem g => (mapGeminiError g, g.message, "gemini")
    | .plain m => ("UNKNOWN_ERROR", m, "backend")
  let store' := (updateJob store jobId
    { status := some .failed,
      error := some { code := errorCode, message := errorMessage, provider := some provider } }
    now).1
  match getJob store' jobId with
  | none => (store', .error "Job not found after error")
  | some failedJob => (store', .ok failedJob)

/-- Everything `processJob` does after the transcript stage produced
`stageOut` against the store `store` (summarizeService.ts lines 68-113): run
the summarize stage if the SNAPSHOT's stage is `summarize`, re-read the job,
or absorb a thrown error. -/
def processJobTail (port : GeminiPort) (now : String) (jobId : String)
    (snapshot : Job) (store : Store) (stageOut : Except ThrownE Store) :
    Store × Except String Job :=
  match stageOut with
  | .error e => processJobCatch jobId e now store
  | .ok store1 =>
      let stage2Out :=
        if snapshot.stage = .summarize then processSummarizeStage port snapshot now store1
        else .ok store1
      match stage2Out with
      | .error e => processJobCatch jobId e now store1
      | .ok store2 =>
          match getJob store2 jobId with
          | none => (store2, .error "Job not found after processing")
          | some updatedJob => (store2, .ok updatedJob)

/-- Model of `processJob` (summarizeService.ts lines 40-114) for a single poll with no
interleaved writers: entry read and terminal-status checks, then the stage
functions, then the tail. -/
def processJob (pollRes : Except SupadataFault TranscriptJobResult)
    (reqRes : Except SupadataFault TranscriptReqResult) (port : GeminiPort)
    (now : String) (jobId : String) (store : Store) : Store × Except String Job :=
  match getJob store jobId with
  | none => (store, .error "Job not found")
  | some job =>
      if job.status = .cancelled ∨ job.status = .completed ∨ job.status = .failed then
        (store, .ok job)
      else
        let stageOut :=
          if job.stage = .transcript then
            processTranscriptStage pollRes reqRes job now store
          else .ok store
        processJobTail port now jobId job store stageOut

/-! ## HTTP route handlers (src/app/api/v1/summaries/[jobId]/route.ts)

Configuration validation and rate limiting always succeed in this model (the
claims under study assume a configured, un-throttled service); `getVideoTitle`
is not modelled (it only decorates the 200 body). -/

/-- The observable part of a GET response. -/
structure GetRes where
  httpStatus : Nat
  errCode : Option String := none
  jobStatus : Option JobStatus := none
  jobStage : Option JobStage := none
  resultF : Option SummaryResult := none
  jobError : Option JobError := none
deriving DecidableEq, Repr

/-- Model of `GET /api/v1/summaries/[jobId]` (route.ts lines 12-214). -/
def routeGET (pollRes : Except SupadataFault TranscriptJobResult)
    (reqRes : Except SupadataFault TranscriptReqResult) (port : GeminiPort)
    (now : String) (jobId : String) (store : Store) : Store × GetRes :=
  match getJob store jobId with
  | none => (store, { httpStatus := 404, errCode := some "JOB_NOT_FOUND" })
  | some job =>
      if job.status = .cancelled then
        (store, { httpStatus := 410, errCode := some "JOB_CANCELLED" })
      else if job.status = .completed then
        (store, { httpStatus := 200, jobStatus := some .completed, resultF := job.result })
      else if job.status = .failed then
        (store, { httpStatus := 500, jobStatus := some .failed, jobError := job.error })
      else
        match processJob pollRes reqRes port now jobId store with
        | (store', .error _) =>
            (store', { httpStatus := 500, errCode := some "INTERNAL_ERROR" })
        | (store', .ok updatedJob) =>
            if updatedJob.status = .processing then
              (store',
                { httpStatus := 202
                  jobStatus := some .processing
                  jobStage := some updatedJob.stage })
            else if updatedJob.status = .completed then
              (store',
                { httpStatus := 200
                  jobStatus := some .completed
                  resultF := updatedJob.result })
            else if updatedJob.status = .failed then
              (store',
                { httpStatus := 500
                  jobStatus := some .failed
                  jobError := updatedJob.error })
            else
              (store', { httpStatus := 500, errCode := some "UNKNOWN_STATE" })

/-- Model of `DELETE /api/v1/summaries/[jobId]` (route.ts lines 217-269): 204 when
`cancelJob` succeeded, 404 otherwise. -/
def routeDELETE (now : String) (jobId : String) (store : Store) : Store × Nat :=
  let (store', cancelled) := cancelJob store jobId now
  if cancelled then (store', 204) else (store', 404)

/-! ## Shared concrete data for witnesses and counterexamples -/

/-- A minimal request input. -/
def exInput : JobInput := { url := "https://youtu.be/abc" }

/-- A processing job in the transcript stage holding a Supadata job handle. -/
def exJobPolling : Job :=
  { id := "J1", status := .processing, stage := .transcript,
    createdAt := "t0", updatedAt := "t0", input := exInput,
    supadata := { mode := "auto", jobId := some "sj" } }

/-- A processing job in the transcript stage with no remote handle. -/
def exJobFresh : Job :=
  { id := "J2", status := .processing, stage := .transcript,
    createdAt := "t0", updatedAt := "t0", input := exInput,
    supadata := { mode := "auto" } }

/-- A failed job. -/
def exJobFailed : Job :=
  { id := "JF", status := .failed, stage := .transcript,
    createdAt := "t0", updatedAt := "t0", input := exInput,
    supadata := { mode := "auto" },
    error := some { code := "VIDEO_UNAVAILABLE", message := "gone", provider := some "supadata" } }

/-- A completed job. -/
def exJobCompleted : Job :=
  { id := "JC", status := .completed, stage := .summarize,
    createdAt := "t0", updatedAt := "t0", input := exInput,
    supadata := { mode := "auto" },
    result := some { summary := "s", keyPoints := ["a","b","c","d","e"], confidence := 80, model := "gemini-2.5-flash-lite" } }

/-- A cancelled job. -/
def exJobCancelled : Job :=
  { id := "JX", status := .cancelled, stage := .transcript,
    createdAt := "t0", updatedAt := "t0", input := exInput,
    supadata := { mode := "auto" } }

/-- A processing job parked in the summarize stage whose stored record carries
the in-memory transcript field. -/
def exJobSummarize : Job :=
  { id := "JS", status := .processing, stage := .summarize,
    createdAt := "t0", updatedAt := "t0", input := exInput,
    supadata := { mode := "auto" }, _transcript := some "text." }

/-- A store holding all the example jobs. -/
def exStore : Store :=
  { jobs := [("job:J1", exJobPolling), ("job:J2", exJobFresh), ("job:JF", exJobFailed),
    ("job:JC", exJobCompleted), ("job:JX", exJobCancelled), ("job:JS", exJobSummarize)] }

/-- A poll answer: remote transcript job completed with content. -/
def exPollDone : TranscriptJobResult :=
  { status := "completed", content := some "hello. world.", lang := some "en" }

/-- A poll answer: remote transcript job completed but with empty content. -/
def exPollEmpty : TranscriptJobResult := { status := "completed", content := some "" }

/-- A transcript request answered synchronously with content. -/
def exReqReady : TranscriptReqResult := { content := some "hello. world.", lang := some "en" }

/-- The `SupadataError` raised on a 206 partial/unavailable answer
(supadataClient.ts lines 105-125). -/
def exUnavailableFault : SupadataFault :=
  { message := "Transcript unavailable for this video",
    code := "TRANSCRIPT_UNAVAILABLE", statusCode := 206 }

/-- A schema-valid summarizer answer. -/
def exGoodResp : GeminiParsed :=
  { summary := "a fine summary", keyPoints := ["p1","p2","p3","p4","p5"], confidence := 90 }

/-- A schema-valid but rule-breaking summarizer answer: empty summary and
five empty key points. -/
def exDegenerateResp : GeminiParsed :=
  { summary := "", keyPoints := ["", "", "", "", ""], confidence := 0 }

/-- A port that always answers with `exGoodResp`. -/
def exGoodPort : GeminiPort := fun _ _ _ => exGoodResp

/-- A port that always answers with `exDegenerateResp`. -/
def exDegeneratePort : GeminiPort := fun _ _ _ => exDegenerateResp

/-- An arbitrary fault for unused oracle slots. -/
def exNetFault : SupadataFault :=
  { message := "Failed to connect to Supadata API", code := "NETWORK_ERROR", statusCode := 500 }

/-- The error record the catch block builds for a Supadata fault with the
given normalized code. -/
def supaJobError (code msg : String) : JobError :=
  { code := code, message := msg, provider := some "supadata" }

/-- A job after the catch block marked it failed with `err`. -/
def markFailed (j : Job) (now : String) (err : JobError) : Job :=
  { j with status := .failed, updatedAt := now, error := some err }

/-- The error record the catch block builds for a Gemini fault. -/
def gemJobError (code msg : String) : JobError :=
  { code := code, message := msg, provider := some "gemini" }

/-- Two option records equal as option sets but in different insertion order. -/
def exOpts1 : OptionsRec := [("length", "short"), ("format", "bullets")]

def exOpts2 : OptionsRec := [("format", "bullets"), ("length", "short")]

/-- The option record with every default spelled out (zod's parse output for
an explicit-defaults request). -/
def exOptsDefaults : OptionsRec :=
  [("length", "standard"), ("format", "bullets"), ("transcriptMode", "auto")]

/-- The `SummaryResult` a completed job stores for `exDegenerateResp`. -/
def exDegenerateResult : SummaryResult :=
  { summary := "", keyPoints := ["", "", "", "", ""], confidence := 0,
    model := "gemini-2.5-flash-lite" }

/-- A provider fault whose message embeds an api-key secret. -/
def exSecretFault : SupadataFault :=
  { message := "api_key=SECRET123 leaked", code := "NETWORK_ERROR", statusCode := 500 }

/-- A port that always answers with a single key point (schema-invalid). -/
def exFewPort : GeminiPort := fun _ _ _ => { summary := "s", keyPoints := ["a"], confidence := 50 }

/-- A 120001-character transcript with no whitespace and no punctuation:
one character longer than the default `maxChars`. -/
def exLongA : List Char := List.replicate 120001 'a'

/-- A long transcript whose first sentence is mostly leading whitespace:
11999 spaces, then "a.", a space, then 120000 letters (132002 characters). -/
def exLongMix : List Char :=
  List.replicate 11999 ' ' ++ ['a', '.'] ++ [' '] ++ List.replicate 120000 'b'

/-- A list whose first character (if any) is not whitespace. -/
def cleanStart (l : List Char) : Prop :=
  ∀ d, l.head? = some d → isJsWs d = false

/-- A list whose last character (if any) is not whitespace. -/
def cleanEnd (l : List Char) : Prop :=
  ∀ d, l.getLast? = some d → isJsWs d = false

/-! # Theorems -/

/-! ## Helper lemmas about the driver -/

/-- When a poll reports `completed` without usable content, the continuation
performs no store write and raises nothing. -/
theorem transcriptPollCont_stall (snapshot : Job) (r : TranscriptJobResult)
    (now : String) (store : Store) (hc : r.status = "completed")
    (he : r.content = none ∨ r.content = some "") :
    transcriptPollCont snapshot r now store = .ok store := by
  unfold transcriptPollCont
  rw [hc]
  have hopt : optTruthy r.content = false := by
    rcases he with h | h <;> rw [h] <;> decide
  simp [hopt]

/-- C10: if `pollTranscriptJob` reports the remote transcript job as
`completed` but with missing or empty content, `processTranscriptStage`
returns without writing the store and without raising an error: the job
record is unchanged (the poll returns exactly the stored job, still
`processing` in stage `transcript`), and the GET built on this poll answers
202 again. -/
theorem c10_completed_empty_content_noop
    (r : TranscriptJobResult) (reqRes : Except SupadataFault TranscriptReqResult)
    (port : GeminiPort) (now jobId : String) (store : Store) (j : Job) (sid : String)
    (hget : getJob store jobId = some j)
    (hstatus : j.status = .processing)
    (hstage : j.stage = .transcript)
    (hhandle : j.supadata.jobId = some sid)
    (hcompleted : r.status = "completed")
    (hempty : r.content = none ∨ r.content = some "") :
    processJob (.ok r) reqRes port now jobId store = (store, .ok j) ∧
      routeGET (.ok r) reqRes port now jobId store =
        (store, { httpStatus := 202, jobStatus := some .processing,
                  jobStage := some .transcript }) := by
  have hstall := transcriptPollCont_stall j r now store hcompleted hempty
  have hproc : processJob (.ok r) reqRes port now jobId store = (store, .ok j) := by
    simp [processJob, hget, hstatus, hstage, hhandle, processTranscriptStage,
      processJobTail, hstall]
  refine ⟨hproc, ?_⟩
  simp [routeGET, hget, hstatus, hstage, hproc]

/-- Witness for C10: a concrete polling job, a concrete `completed`-but-empty
poll answer, and the resulting unchanged store and 202. -/
theorem c10_completed_empty_content_noop_witness :
    processJob (.ok exPollEmpty) (.error exNetFault) exGoodPort "t3" "J1" exStore =
        (exStore, .ok exJobPolling) ∧
      routeGET (.ok exPollEmpty) (.error exNetFault) exGoodPort "t3" "J1" exStore =
        (exStore, { httpStatus := 202, jobStatus := some .processing,
                    jobStage := some .transcript }) :=
  c10_completed_empty_content_noop exPollEmpty (.error exNetFault) exGoodPort "t3" "J1"
    exStore exJobPolling "sj" (by decide) rfl rfl rfl rfl (Or.inr rfl)

/-- Reading back the key just written returns the written value. -/
theorem assocGet_assocSet_same {α : Type} (k : String) (v : α) (l : List (String × α)) :
    assocGet k (assocSet k v l) = some v := by
  induction l with
  | nil => simp [assocGet, assocSet]
  | cons hd tl ih =>
      obtain ⟨k', v'⟩ := hd
      by_cases h : k' = k
      · simp [assocGet, assocSet, h]
      · simp [assocGet, assocSet, h, ih]

/-- Reading a job back right after `saveJob` stored it. -/
theorem getJob_saveJob_same (store : Store) (j : Job) :
    getJob (saveJob store j) j.id = some j := by
  unfold getJob saveJob
  exact assocGet_assocSet_same _ _ _

/-- C8 (amended): when `getTranscript` fails with the partial/unavailable
signal, the poll absorbs the `SupadataError` into the job: status becomes
`failed` with `error.code = TRANSCRIPT_UNAVAILABLE` and
`error.provider = "supadata"` (the code stores the provider name, not the
spec's port name "transcript"), and any subsequent GET returns 500 with
status `failed` and that error envelope. -/
theorem c8_transcript_unavailable_flow
    (pollRes : Except SupadataFault TranscriptJobResult) (e : SupadataFault)
    (port : GeminiPort) (now jobId : String) (store : Store) (j : Job)
    (pollRes2 : Except SupadataFault TranscriptJobResult)
    (reqRes2 : Except SupadataFault TranscriptReqResult) (port2 : GeminiPort) (now2 : String)
    (hget : getJob store jobId = some j) (hid : j.id = jobId)
    (hstatus : j.status = .processing) (hstage : j.stage = .transcript)
    (hnohandle : j.supadata.jobId = none)
    (hcode : e.code = "TRANSCRIPT_UNAVAILABLE") :
    processJob pollRes (.error e) port now jobId store =
        (saveJob store (markFailed j now (supaJobError "TRANSCRIPT_UNAVAILABLE" e.message)),
          .ok (markFailed j now (supaJobError "TRANSCRIPT_UNAVAILABLE" e.message))) ∧
      routeGET pollRes2 reqRes2 port2 now2 jobId
          (processJob pollRes (.error e) port now jobId store).1 =
        ((processJob pollRes (.error e) port now jobId store).1,
          { httpStatus := 500, jobStatus := some .failed,
            jobError := some (supaJobError "TRANSCRIPT_UNAVAILABLE" e.message) }) := by
  have hread : getJob
      (saveJob store (markFailed j now (supaJobError "TRANSCRIPT_UNAVAILABLE" e.message)))
      jobId = some (markFailed j now (supaJobError "TRANSCRIPT_UNAVAILABLE" e.message)) := by
    rw [← hid]
    exact getJob_saveJob_same store (markFailed j now _)
  simp only [markFailed, supaJobError, hstage] at hread
  have hfail : processJob pollRes (.error e) port now jobId store =
      (saveJob store (markFailed j now (supaJobError "TRANSCRIPT_UNAVAILABLE" e.message)),
        .ok (markFailed j now (supaJobError "TRANSCRIPT_UNAVAILABLE" e.message))) := by
    simp [processJob, hget, hstatus, hstage, hnohandle, processTranscriptStage,
      processJobTail, processJobCatch, mapSupadataError, hcode, updateJob,
      applyUpdates, hread, markFailed, supaJobError]
  refine ⟨hfail, ?_⟩
  rw [hfail]
  simp [routeGET, hread, markFailed, supaJobError, hstage]

/-- Witness for C8's amended theorem: the 206 partial/unavailable fault on a
fresh transcript-stage job. -/
theorem c8_transcript_unavailable_flow_witness :
    processJob (.error exNetFault) (.error exUnavailableFault) exGoodPort "t4" "J2" exStore =
        (saveJob exStore (markFailed exJobFresh "t4"
            (supaJobError "TRANSCRIPT_UNAVAILABLE" "Transcript unavailable for this video")),
          .ok (markFailed exJobFresh "t4"
            (supaJobError "TRANSCRIPT_UNAVAILABLE" "Transcript unavailable for this video"))) ∧
      routeGET (.error exNetFault) (.error exUnavailableFault) exGoodPort "t5" "J2"
          (processJob (.error exNetFault) (.error exUnavailableFault) exGoodPort
            "t4" "J2" exStore).1 =
        ((processJob (.error exNetFault) (.error exUnavailableFault) exGoodPort
            "t4" "J2" exStore).1,
          { httpStatus := 500, jobStatus := some .failed,
            jobError := some (supaJobError "TRANSCRIPT_UNAVAILABLE"
              "Transcript unavailable for this video") }) :=
  c8_transcript_unavailable_flow (.error exNetFault) exUnavailableFault exGoodPort "t4" "J2"
    exStore exJobFresh (.error exNetFault) (.error exUnavailableFault) exGoodPort "t5"
    (by decide) rfl rfl rfl rfl rfl

/-- C8 counterexample: the claim says the stored envelope has
`error.provider "transcript"`; on the code the stored provider is the literal
string "supadata". -/
theorem c8_provider_value_cex :
    ((getJob (processJob (.error exNetFault) (.error exUnavailableFault) exGoodPort
        "t4" "J2" exStore).1 "J2").map fun j => (j.status, j.error)) =
      some (.failed,
        some (supaJobError "TRANSCRIPT_UNAVAILABLE" "Transcript unavailable for this video")) ∧
    ¬ ((getJob (processJob (.error exNetFault) (.error exUnavailableFault) exGoodPort
        "t4" "J2" exStore).1 "J2").map fun j => j.error.map (·.provider)) =
      some (some (some "transcript")) := by
  constructor
  · decide
  · decide

/-- C2 (amended): DELETE is a 404 no-op exactly for a missing, `completed` or
`cancelled` job; a `failed` job is NOT protected — `cancelJob` accepts it,
mutates the terminal job to `cancelled` and the route answers 204. -/
theorem c2_delete_terminal_behavior (now jobId : String) (store : Store) (j : Job)
    (hget : getJob store jobId = some j) (hid : j.id = jobId) :
    (j.status = .completed ∨ j.status = .cancelled →
      routeDELETE now jobId store = (store, 404)) ∧
    (j.status = .processing ∨ j.status = .failed →
      routeDELETE now jobId store =
        (saveJob store { j with status := .cancelled, updatedAt := now }, 204) ∧
      getJob (routeDELETE now jobId store).1 jobId =
        some { j with status := .cancelled, updatedAt := now }) := by
  constructor
  · intro hterm
    rcases hterm with h | h <;>
      simp [routeDELETE, cancelJob, hget, h]
  · intro hlive
    have hcond : ¬(j.status = .completed ∨ j.status = .cancelled) := by
      rcases hlive with h | h <;> rw [h] <;> decide
    have hdel : routeDELETE now jobId store =
        (saveJob store { j with status := .cancelled, updatedAt := now }, 204) := by
      simp [routeDELETE, cancelJob, hget, hcond, updateJob, applyUpdates]
    refine ⟨hdel, ?_⟩
    rw [hdel, ← hid]
    exact getJob_saveJob_same _ _

/-- Witness for C2's amended theorem at a processing job: DELETE answers 204
and stores the cancelled job. -/
theorem c2_delete_terminal_behavior_witness :
    routeDELETE "t6" "J1" exStore =
        (saveJob exStore { exJobPolling with status := .cancelled, updatedAt := "t6" }, 204) ∧
      getJob (routeDELETE "t6" "J1" exStore).1 "J1" =
        some { exJobPolling with status := .cancelled, updatedAt := "t6" } :=
  (c2_delete_terminal_behavior "t6" "J1" exStore exJobPolling (by decide) rfl).2
    (Or.inl rfl)

/-- C2 counterexample: on a `failed` (terminal) job, DELETE answers 204 (the
claim demands 404) and mutates the stored job to `cancelled` (the claim
demands a no-op). -/
theorem c2_delete_failed_cex :
    (routeDELETE "t6" "JF" exStore).2 = 204 ∧
      ((getJob (routeDELETE "t6" "JF" exStore).1 "JF").map fun j => (j.status, j.error)) =
        some (.cancelled, some (supaJobError "VIDEO_UNAVAILABLE" "gone")) := by
  constructor
  · decide
  · decide

/-- C1 (amended): cancellation is observed only at the start of a poll — when
the stored job is already `cancelled` as `processJob` begins, the driver
returns it unchanged and performs no store write. -/
theorem c1_cancel_checked_at_entry
    (pollRes : Except SupadataFault TranscriptJobResult)
    (reqRes : Except SupadataFault TranscriptReqResult) (port : GeminiPort)
    (now jobId : String) (store : Store) (j : Job)
    (hget : getJob store jobId = some j) (hcanc : j.status = .cancelled) :
    processJob pollRes reqRes port now jobId store = (store, .ok j) := by
  simp [processJob, hget, hcanc]

/-- Witness for C1's amended theorem on the concrete cancelled job. -/
theorem c1_cancel_checked_at_entry_witness :
    processJob (.ok exPollDone) (.ok exReqReady) exGoodPort "t9" "JX" exStore =
      (exStore, .ok exJobCancelled) :=
  c1_cancel_checked_at_entry (.ok exPollDone) (.ok exReqReady) exGoodPort "t9" "JX"
    exStore exJobCancelled (by decide) rfl

/-- C1 counterexample: a DELETE that lands while the transcript poll is in
flight is NOT re-observed.  The store turns `cancelled` at the interior
checkpoint, yet when the `completed` poll answer is processed the driver
mutates the job (stage advances) and the stale-snapshot `saveJob` even
reverts the status to `processing` — the status does not remain `cancelled`. -/
theorem c1_cancel_overwritten_cex :
    ((getJob (cancelJob exStore "J1" "t1").1 "J1").map (·.status)) = some .cancelled ∧
      ((getJob (processJobTail exGoodPort "t2" "J1" exJobPolling
          (cancelJob exStore "J1" "t1").1
          (transcriptPollCont exJobPolling exPollDone "t2"
            (cancelJob exStore "J1" "t1").1)).1 "J1").map fun j => (j.status, j.stage)) =
        some (.processing, .summarize) := by
  constructor
  · decide
  · decide

/-- C3: the code persists the transcript text into the job store.  A
synchronously-ready transcript is written under the `job:{id}` key via
`saveJob` inside the `_transcript` field (the in-code comment claims the
field is "not persisted"), where the next request reads it back —
contradicting the claim that no value saved under a `job:` key contains the
transcript and that transcripts never survive across requests. -/
theorem c3_transcript_persisted_bug :
    ((getJob (processJob (.ok exPollEmpty) (.ok exReqReady) exGoodPort "t7" "J2"
        exStore).1 "J2").map fun j => (j.stage, j._transcript)) =
      some (.summarize, some "hello. world.") := by
  decide

/-- C4 (amended): the fingerprint is deterministic only in the serialized
options text — whenever `JSON.stringify` of the two option records agrees
(in particular for identical key order), the cache keys agree. -/
theorem c4_cache_key_serialization_det (url : String) (o1 o2 : Option OptionsRec)
    (h : optionsStr o1 = optionsStr o2) :
    generateCacheKey url o1 = generateCacheKey url o2 := by
  unfold generateCacheKey
  rw [h]

/-- Witness for C4's amended theorem: two distinct record values with the
same serialization (a fresh copy of the same list). -/
theorem c4_cache_key_serialization_det_witness :
    generateCacheKey "https://youtu.be/abc" (some exOpts1) =
      generateCacheKey "https://youtu.be/abc" (some [("length", "short"), ("format", "bullets")]) :=
  c4_cache_key_serialization_det "https://youtu.be/abc" (some exOpts1)
    (some [("length", "short"), ("format", "bullets")]) rfl

set_option maxRecDepth 4000 in
/-- C4 counterexample: `generateCacheKey` hashes `JSON.stringify(options)`,
so two records that are equal as option sets (a permutation of the same
key/value pairs) fingerprint differently, and omitting the defaults
fingerprints differently from spelling them out. -/
theorem c4_cache_key_order_cex :
    exOpts1.Perm exOpts2 ∧
      generateCacheKey "https://youtu.be/abc" (some exOpts1) ≠
        generateCacheKey "https://youtu.be/abc" (some exOpts2) ∧
      generateCacheKey "https://youtu.be/abc" none ≠
        generateCacheKey "https://youtu.be/abc" (some exOptsDefaults) := by
  refine ⟨?_, ?_, ?_⟩
  · decide
  · decide
  · decide

/-- If every answer the port gives fails `validateGeminiResponse`, the whole
`summarizeTranscript` run raises `INVALID_RESPONSE`. -/
theorem summarizeTranscript_all_invalid (port : GeminiPort)
    (h : ∀ c l f, validateGeminiResponse (port c l f) = false)
    (t : List Char) (l : SummaryLength) (f : SummaryFormat) :
    (summarizeTranscript port t l f).2 = .error invalidRespFault := by
  unfold summarizeTranscript
  cases hc : chunkTranscript t with
  | nil => simp [summarizeMapLoop, summarizeChunk, h]
  | cons c rest =>
      cases rest with
      | nil => simp [summarizeChunk, h]
      | cons c2 rest2 => simp [summarizeMapLoop, summarizeChunk, h]

/-- C6 (amended): the response of every summarizer call is validated against
the rules the schema actually contains — keyPoints count in
`[config.keyPoints.min, config.keyPoints.max]` and confidence an integer in
`[0,100]` — and a response violating a checked rule is never stored: the
poll absorbs `INVALID_RESPONSE`, mapped to `GEMINI_INVALID_RESPONSE`, and the
job fails.  (The summary-length window and key-point non-emptiness are NOT
checked; see the counterexample.) -/
theorem c6_invalid_never_stored
    (pollRes : Except SupadataFault TranscriptJobResult)
    (reqRes : Except SupadataFault TranscriptReqResult) (port : GeminiPort)
    (now jobId : String) (store : Store) (j : Job)
    (hport : ∀ c l f, validateGeminiResponse (port c l f) = false)
    (hget : getJob store jobId = some j) (hid : j.id = jobId)
    (hstatus : j.status = .processing) (hstage : j.stage = .summarize)
    (htrans : optTruthy j._transcript = true) :
    processJob pollRes reqRes port now jobId store =
      (saveJob store (markFailed j now
          (gemJobError "GEMINI_INVALID_RESPONSE" "Invalid Gemini response")),
        .ok (markFailed j now
          (gemJobError "GEMINI_INVALID_RESPONSE" "Invalid Gemini response"))) := by
  have hgetid : getJob store j.id = some j := by rw [hid]; exact hget
  have hsum := summarizeTranscript_all_invalid port hport
    ((j._transcript).getD "").data
    (((j.input.options).bind (·.length)).getD .standard)
    (((j.input.options).bind (·.format)).getD .bullets)
  have hread : getJob
      (saveJob store (markFailed j now
        (gemJobError "GEMINI_INVALID_RESPONSE" "Invalid Gemini response"))) jobId =
      some (markFailed j now
        (gemJobError "GEMINI_INVALID_RESPONSE" "Invalid Gemini response")) := by
    rw [← hid]
    exact getJob_saveJob_same store (markFailed j now _)
  simp only [markFailed, gemJobError, hstage] at hread
  simp [processJob, hget, hstatus, hstage, processJobTail, processSummarizeStage,
    hgetid, htrans, hsum, processJobCatch, mapGeminiError, invalidRespFault,
    updateJob, applyUpdates, hread, markFailed, gemJobError]

/-- Witness for C6's amended theorem: a port that always answers with only
four key points (failing the checked count rule) on the parked summarize-stage
job. -/
theorem c6_invalid_never_stored_witness :
    processJob (.ok exPollEmpty) (.ok exReqReady) exFewPort "t8" "JS" exStore =
      (saveJob exStore (markFailed exJobSummarize "t8"
          (gemJobError "GEMINI_INVALID_RESPONSE" "Invalid Gemini response")),
        .ok (markFailed exJobSummarize "t8"
          (gemJobError "GEMINI_INVALID_RESPONSE" "Invalid Gemini response"))) :=
  c6_invalid_never_stored (.ok exPollEmpty) (.ok exReqReady) exFewPort
    "t8" "JS" exStore exJobSummarize
    (by
      have hfew : validateGeminiResponse
          { summary := "s", keyPoints := ["a"], confidence := 50 } = false := by decide
      exact fun _ _ _ => hfew)
    (by decide) rfl rfl rfl
    (by decide)

/-- C6 counterexample: a response with an empty summary (outside every
configured length window) and five empty key points passes
`validateGeminiResponse` and is stored as the completed job's result. -/
theorem c6_validation_gap_cex :
    validateGeminiResponse exDegenerateResp = true ∧
      exDegenerateResp.summary.length < (summaryWindow .short).min ∧
      exDegenerateResp.summary.length < (summaryWindow .standard).min ∧
      exDegenerateResp.summary.length < (summaryWindow .detailed).min ∧
      "" ∈ exDegenerateResp.keyPoints ∧
      ((getJob (processJob (.ok exPollEmpty) (.ok exReqReady) exDegeneratePort
          "t8" "JS" exStore).1 "JS").map fun j => (j.status, j.result)) =
        some (.completed, some exDegenerateResult) := by
  refine ⟨by decide, by decide, by decide, by decide, by decide, by decide⟩

/-- C7 (amended): `sanitizeErrorMessage` implements the api-key and URL
substitutions, but it is never applied on the job path — `processJob` stores
the provider error message verbatim in the failed job. -/
theorem c7_raw_message_stored
    (pollRes : Except SupadataFault TranscriptJobResult) (e : SupadataFault)
    (port : GeminiPort) (now jobId : String) (store : Store) (j : Job)
    (hget : getJob store jobId = some j) (hid : j.id = jobId)
    (hstatus : j.status = .processing) (hstage : j.stage = .transcript)
    (hnohandle : j.supadata.jobId = none) :
    processJob pollRes (.error e) port now jobId store =
      (saveJob store (markFailed j now (supaJobError (mapSupadataError e) e.message)),
        .ok (markFailed j now (supaJobError (mapSupadataError e) e.message))) := by
  have hread : getJob
      (saveJob store (markFailed j now (supaJobError (mapSupadataError e) e.message)))
      jobId = some (markFailed j now (supaJobError (mapSupadataError e) e.message)) := by
    rw [← hid]
    exact getJob_saveJob_same store (markFailed j now _)
  simp only [markFailed, supaJobError, hstage] at hread
  simp [processJob, hget, hstatus, hstage, hnohandle, processTranscriptStage,
    processJobTail, processJobCatch, updateJob, applyUpdates, hread,
    markFailed, supaJobError]

/-- Witness for C7's amended theorem: a fault whose message carries an
api-key secret is stored word for word. -/
theorem c7_raw_message_stored_witness :
    processJob (.ok exPollEmpty) (.error exSecretFault) exGoodPort "ts" "J2" exStore =
      (saveJob exStore (markFailed exJobFresh "ts"
          (supaJobError (mapSupadataError exSecretFault) "api_key=SECRET123 leaked")),
        .ok (markFailed exJobFresh "ts"
          (supaJobError (mapSupadataError exSecretFault) "api_key=SECRET123 leaked"))) :=
  c7_raw_message_stored (.ok exPollEmpty) exSecretFault exGoodPort "ts" "J2" exStore
    exJobFresh (by decide) rfl rfl rfl rfl

/-- C7 counterexample: the message stored in the failed job still contains
the api-key secret, although `sanitizeErrorMessage` would have replaced it —
the stored message is not the sanitized one. -/
theorem c7_unsanitized_store_cex :
    ((getJob (processJob (.ok exPollEmpty) (.error exSecretFault) exGoodPort
        "ts" "J2" exStore).1 "J2").map fun j => j.error.map (·.message)) =
      some (some "api_key=SECRET123 leaked") ∧
    sanitizeErrorMessage "api_key=SECRET123 leaked" = "API_KEY leaked" ∧
    ("api_key=SECRET123 leaked" : String) ≠ "API_KEY leaked" := by
  refine ⟨by decide, by decide, by decide⟩

/-! ## Evaluation lemmas for the splitter and chunker on long inputs -/

/-- A run without whitespace never triggers a split: the scan just finishes
the current sentence. -/
theorem splitAux_no_ws (l : List Char) (hl : ∀ c ∈ l, isJsWs c = false) :
    ∀ cur : List Char, splitAux cur false l = [cur.reverse ++ l] := by
  induction l with
  | nil => intro cur; simp [splitAux]
  | cons c rest ih =>
      intro cur
      have hc : isJsWs c = false := hl c (List.mem_cons_self c rest)
      have hrest : ∀ x ∈ rest, isJsWs x = false := fun x hx => hl x (List.mem_cons_of_mem c hx)
      rw [splitAux, if_neg (by simp), if_neg (by simp [hc]), ih hrest (c :: cur)]
      simp

/-- A punctuation-free run is consumed wholesale when the current sentence
does not end in punctuation. -/
theorem splitAux_consume (seg : List Char) (hseg : ∀ c ∈ seg, isSentEnd c = false) :
    ∀ (cur : List Char) (rest : List Char), sentEndHead cur = false →
      splitAux cur false (seg ++ rest) = splitAux (seg.reverse ++ cur) false rest := by
  induction seg with
  | nil => intro cur rest _; simp
  | cons c seg' ih =>
      intro cur rest hcur
      have hc : isSentEnd c = false := hseg c (List.mem_cons_self c seg')
      have hseg' : ∀ x ∈ seg', isSentEnd x = false := fun x hx => hseg x (List.mem_cons_of_mem c hx)
      rw [List.cons_append, splitAux, if_neg (by simp), if_neg (by simp [hcur]),
        ih hseg' (c :: cur) rest (by simp [sentEndHead, hc])]
      simp

/-- Dropping a satisfying prefix. -/
theorem dropWhile_all_append {p : Char → Bool} (w l : List Char)
    (hw : ∀ c ∈ w, p c = true) : List.dropWhile p (w ++ l) = List.dropWhile p l := by
  induction w with
  | nil => simp
  | cons c w' ih =>
      have hc := hw c (List.mem_cons_self c w')
      simp only [List.cons_append, List.dropWhile_cons, hc, if_true]
      exact ih fun x hx => hw x (List.mem_cons_of_mem c hx)

/-- Lists without whitespace are fixed by `trim`. -/
theorem trim_no_ws (l : List Char) (hl : ∀ c ∈ l, isJsWs c = false) : trim l = l := by
  have htl : trimL l = l := by
    unfold trimL
    cases l with
    | nil => simp
    | cons c rest =>
        simp [List.dropWhile_cons, hl c (List.mem_cons_self c rest)]
  have htr : trimR l = l := by
    unfold trimR
    cases hrev : l.reverse with
    | nil => simp [List.reverse_eq_nil_iff.mp hrev]
    | cons c rest =>
        have hc : c ∈ l := by
          have : c ∈ l.reverse := by rw [hrev]; exact List.mem_cons_self c rest
          simpa using this
        rw [List.dropWhile_cons, hl c hc]
        simp [← hrev]
  unfold trim
  rw [htl, htr]

/-- Equation for `splitAux` on the empty list. -/
theorem splitAux_nil (cur : List Char) (skip : Bool) : splitAux cur skip [] = [cur.reverse] := by
  cases skip <;> rfl

/-- Equation for `splitAux` out of skip mode. -/
theorem splitAux_cons_noskip (cur : List Char) (c : Char) (rest : List Char) :
    splitAux cur false (c :: rest) =
      if sentEndHead cur = true ∧ isJsWs c = true then cur.reverse :: splitAux [] true rest
      else splitAux (c :: cur) false rest := by
  simp only [splitAux, Bool.false_eq_true, if_false]

/-- Equation for `splitAux` in skip mode. -/
theorem splitAux_cons_skip (cur : List Char) (c : Char) (rest : List Char) :
    splitAux cur true (c :: rest) =
      if isJsWs c = true then splitAux cur true rest else splitAux [c] false rest := by
  simp only [splitAux, if_pos]

/-- The greedy loop closes the current chunk. -/
theorem chunkGo_cons_push (minC maxC : Nat) (s : List Char) (rest : List (List Char))
    (cur : List Char) (h : maxC < cur.length + s.length ∧ minC ≤ cur.length) :
    chunkGo minC maxC (s :: rest) cur = trim cur :: chunkGo minC maxC rest s := by
  rw [chunkGo, if_pos h]

/-- The greedy loop appends the sentence to the current chunk. -/
theorem chunkGo_cons_join (minC maxC : Nat) (s : List Char) (rest : List (List Char))
    (cur : List Char) (h : ¬(maxC < cur.length + s.length ∧ minC ≤ cur.length)) :
    chunkGo minC maxC (s :: rest) cur = chunkGo minC maxC rest (joinStep cur s) := by
  rw [chunkGo, if_neg h]

/-- The final push of a nonempty trimmed chunk. -/
theorem chunkGo_nil_of_ne (minC maxC : Nat) (cur : List Char)
    (h : ¬trim cur = []) : chunkGo minC maxC [] cur = [trim cur] := by
  rw [chunkGo, if_neg (by simpa [List.isEmpty_iff] using h)]

/-- Appending to the empty current chunk inserts no space. -/
theorem joinStep_nil (s : List Char) : joinStep [] s = s := rfl

/-- Splitting `exLongA`: no whitespace, so a single sentence. -/
theorem splitSentences_exLongA : splitSentences exLongA = [exLongA] := by
  unfold splitSentences exLongA
  rw [splitAux_no_ws (List.replicate 120001 'a')
    (by intro c hc; rw [List.eq_of_mem_replicate hc]; rfl) []]
  simp only [List.reverse_nil, List.nil_append]

/-- Long replicated lists are nonempty. -/
theorem exLongA_length : exLongA.length = 120001 := by
  simp only [exLongA, List.length_replicate]

/-- Chunking `exLongA`: longer than `maxChars`, no split point exists, and
the greedy loop emits one chunk holding the whole transcript. -/
theorem chunkTranscript_exLongA : chunkTranscript exLongA = [exLongA] := by
  have hnws : ∀ c ∈ exLongA, isJsWs c = false := by
    intro c hc
    have hca : c = 'a' := List.eq_of_mem_replicate (by simpa only [exLongA] using hc)
    rw [hca]
    rfl
  have htrim : trim exLongA = exLongA := trim_no_ws exLongA hnws
  unfold chunkTranscript
  rw [if_neg (by rw [exLongA_length]; decide)]
  rw [splitSentences_exLongA]
  rw [chunkGo_cons_join _ _ _ _ _ (by rintro ⟨-, h2⟩; revert h2; decide)]
  rw [joinStep_nil]
  rw [chunkGo_nil_of_ne _ _ _ (by
    rw [htrim]
    exact List.ne_nil_of_length_pos (by rw [exLongA_length]; decide))]
  rw [htrim]

/-- Splitting `exLongMix`: the match consumes the space after "a.", leaving
the leading whitespace attached to the first sentence. -/
theorem splitSentences_exLongMix :
    splitSentences exLongMix =
      [List.replicate 11999 ' ' ++ ['a', '.'], List.replicate 120000 'b'] := by
  unfold splitSentences exLongMix
  rw [List.append_assoc, List.append_assoc]
  rw [splitAux_consume (List.replicate 11999 ' ')
    (by intro c hc; rw [List.eq_of_mem_replicate hc]; rfl) [] _ rfl]
  rw [List.append_nil, List.reverse_replicate]
  rw [List.cons_append, splitAux_cons_noskip,
    if_neg (fun h => absurd h.2 (by decide))]
  rw [List.cons_append, List.nil_append, splitAux_cons_noskip,
    if_neg (fun h => absurd h.1 (by decide))]
  rw [List.singleton_append, splitAux_cons_noskip, if_pos ⟨rfl, rfl⟩]
  have hrep : List.replicate 120000 'b' = 'b' :: List.replicate 119999 'b' := by
    rw [show (120000 : Nat) = 119999 + 1 from rfl]
    exact List.replicate_succ 'b' 119999
  rw [hrep, splitAux_cons_skip, if_neg (by decide)]
  rw [splitAux_no_ws (List.replicate 119999 'b') (by
    intro c hc
    rw [List.eq_of_mem_replicate hc]
    rfl) ['b']]
  simp only [List.reverse_cons, List.reverse_nil, List.reverse_replicate,
    List.append_assoc, List.cons_append, List.nil_append, List.singleton_append]

/-- Chunking `exLongMix`: the greedy loop pushes the first sentence (12001
characters pre-trim), `.trim()` shrinks that pushed chunk to just "a."
(2 characters), and the letters form a second oversized chunk. -/
theorem chunkTranscript_exLongMix :
    chunkTranscript exLongMix = [['a', '.'], List.replicate 120000 'b'] := by
  have hlen : exLongMix.length = 132002 := by
    simp only [exLongMix, List.length_append, List.length_replicate, List.length_cons,
      List.length_nil]
  have hl1 : (List.replicate 11999 ' ' ++ ['a', '.']).length = 12001 := by
    simp only [List.length_append, List.length_replicate, List.length_cons, List.length_nil]
  have hl2 : (List.replicate 120000 'b').length = 120000 := List.length_replicate _ _
  have hwall : ∀ c ∈ List.replicate 11999 ' ', isJsWs c = true := by
    intro c hc
    have hce : c = ' ' := List.eq_of_mem_replicate hc
    rw [hce]
    rfl
  have htr1 : trim (List.replicate 11999 ' ' ++ ['a', '.']) = ['a', '.'] := by
    unfold trim trimL
    rw [dropWhile_all_append (List.replicate 11999 ' ') ['a', '.'] hwall]
    decide
  have hbnws : ∀ c ∈ List.replicate 120000 'b', isJsWs c = false := by
    intro c hc
    have hce : c = 'b' := List.eq_of_mem_replicate hc
    rw [hce]
    rfl
  have htr2 : trim (List.replicate 120000 'b') = List.replicate 120000 'b' :=
    trim_no_ws _ hbnws
  unfold chunkTranscript
  rw [if_neg (by rw [hlen]; decide)]
  rw [splitSentences_exLongMix]
  rw [chunkGo_cons_join _ _ _ _ _ (by rintro ⟨-, h2⟩; revert h2; decide)]
  rw [joinStep_nil]
  rw [chunkGo_cons_push _ _ _ _ _
    ⟨by rw [hl1, hl2]; decide, by rw [hl1]; decide⟩]
  rw [chunkGo_nil_of_ne _ _ _ (by
    rw [htr2]
    exact List.ne_nil_of_length_pos (by rw [hl2]; decide))]
  rw [htr1, htr2]

set_option maxRecDepth 2000 in
/-- C5 counterexample: two transcripts longer than `maxChars` on which the
claimed chunk bounds fail.  On `exLongA` (no sentence boundary) the single
produced chunk has 120001 characters, far above `chunkMaxChars = 18000`; on
`exLongMix` the non-terminal chunk is trimmed down to "a." (2 characters),
far below `chunkMinChars = 12000`. -/
theorem c5_chunk_bounds_cex :
    config.transcript.maxChars < exLongA.length ∧
      chunkTranscript exLongA = [exLongA] ∧
      config.transcript.chunkMaxChars < exLongA.length ∧
      config.transcript.maxChars < exLongMix.length ∧
      chunkTranscript exLongMix = [['a', '.'], List.replicate 120000 'b'] ∧
      (['a', '.'] : List Char).length < config.transcript.chunkMinChars := by
  refine ⟨?_, chunkTranscript_exLongA, ?_, ?_, chunkTranscript_exLongMix, ?_⟩
  · rw [exLongA_length]
    decide
  · rw [exLongA_length]
    decide
  · have hlen : exLongMix.length = 132002 := by
      simp only [exLongMix, List.length_append, List.length_replicate, List.length_cons,
        List.length_nil]
    rw [hlen]
    decide
  · decide

/-- With an always-valid port the map loop issues one standard/paragraph call
per chunk, in order, and collects the summaries. -/
theorem summarizeMapLoop_all_valid (port : GeminiPort)
    (h : ∀ c l f, validateGeminiResponse (port c l f) = true) :
    ∀ chunks : List (List Char), summarizeMapLoop port chunks =
      (chunks.map fun c => { text := c, length := .standard, format := .paragraph },
        .ok (chunks.map fun c => (port c .standard .paragraph).summary)) := by
  intro chunks
  induction chunks with
  | nil => rfl
  | cons c rest ih => simp [summarizeMapLoop, summarizeChunk, h, ih, Except.map]

/-- C9: on a transcript that chunks into n ≥ 2 pieces, `summarizeTranscript`
issues exactly n map calls with `length=standard, format=paragraph`, one per
chunk in input order, joins the n chunk summaries with a blank line, and
issues exactly one reduce call carrying the user-requested length and
format, whose output is the returned final result. -/
theorem c9_map_reduce_calls (port : GeminiPort) (t : List Char)
    (l : SummaryLength) (f : SummaryFormat)
    (hvalid : ∀ c l' f', validateGeminiResponse (port c l' f') = true)
    (_hlong : config.transcript.maxChars < t.length)
    (hmulti : 2 ≤ (chunkTranscript t).length) :
    summarizeTranscript port t l f =
      ((chunkTranscript t).map
          (fun c => { text := c, length := .standard, format := .paragraph }) ++
        [{ text := (String.intercalate "\n\n"
              ((chunkTranscript t).map fun c => (port c .standard .paragraph).summary)).data,
           length := l, format := f }],
        .ok (port (String.intercalate "\n\n"
            ((chunkTranscript t).map fun c => (port c .standard .paragraph).summary)).data
          l f)) := by
  have hne1 : ¬(chunkTranscript t).length = 1 := by omega
  unfold summarizeTranscript
  rw [if_neg hne1]
  rw [summarizeMapLoop_all_valid port hvalid (chunkTranscript t)]
  simp [summarizeChunk, hvalid]

/-- Witness for C9 on the concrete two-chunk transcript `exLongMix` with the
user asking for a detailed bullet summary. -/
theorem c9_map_reduce_calls_witness :
    summarizeTranscript exGoodPort exLongMix .detailed .bullets =
      ([{ text := ['a', '.'], length := .standard, format := .paragraph },
        { text := List.replicate 120000 'b', length := .standard, format := .paragraph },
        { text := "a fine summary\n\na fine summary".data, length := .detailed,
          format := .bullets }],
        .ok exGoodResp) := by
  have h := c9_map_reduce_calls exGoodPort exLongMix .detailed .bullets
    (by
      have hv : validateGeminiResponse exGoodResp = true := by decide
      exact fun _ _ _ => hv)
    (by
      have hlen : exLongMix.length = 132002 := by
        simp only [exLongMix, List.length_append, List.length_replicate, List.length_cons,
          List.length_nil]
      rw [hlen]
      decide)
    (by rw [chunkTranscript_exLongMix]; decide)
  rw [chunkTranscript_exLongMix] at h
  simpa only [List.map_cons, List.map_nil, List.cons_append, List.nil_append] using h

/-! ## Whitespace-trimming lemmas -/

/-- Sentence-end punctuation is not whitespace. -/
theorem punct_not_ws {c : Char} (h : isSentEnd c = true) : isJsWs c = false := by
  have hc : c = '.' ∨ c = '!' ∨ c = '?' := by simpa [isSentEnd] using h
  rcases hc with h | h | h <;> rw [h] <;> rfl

/-- Dropping over an append whose left part contains a failing element. -/
theorem dropWhile_append_of_mem {p : Char → Bool} (a b : List Char)
    (h : ∃ c ∈ a, p c = false) :
    List.dropWhile p (a ++ b) = List.dropWhile p a ++ b ∧ List.dropWhile p a ≠ [] := by
  induction a with
  | nil => obtain ⟨c, hc, -⟩ := h; exact absurd hc (List.not_mem_nil c)
  | cons c a' ih =>
      by_cases hpc : p c = true
      · have h' : ∃ x ∈ a', p x = false := by
          obtain ⟨x, hx, hpx⟩ := h
          rcases List.mem_cons.mp hx with rfl | hx'
          · rw [hpc] at hpx; cases hpx
          · exact ⟨x, hx', hpx⟩
        obtain ⟨h1, h2⟩ := ih h'
        constructor
        · simp only [List.cons_append, List.dropWhile_cons, hpc, if_true]
          exact h1
        · simp only [List.dropWhile_cons, hpc, if_true]
          exact h2
      · have hpc' : p c = false := by revert hpc; cases p c <;> simp
        constructor
        · simp only [List.cons_append, List.dropWhile_cons, hpc', Bool.false_eq_true, if_false]
        · simp only [List.dropWhile_cons, hpc', Bool.false_eq_true, if_false]
          exact List.cons_ne_nil c a'

/-- A clean-start list is fixed by left trimming. -/
theorem trimL_eq_of_cleanStart (l : List Char) (h : cleanStart l) : trimL l = l := by
  unfold trimL
  cases l with
  | nil => rfl
  | cons c rest =>
      rw [List.dropWhile_cons, h c List.head?_cons]
      simp

/-- A clean-end list is fixed by right trimming. -/
theorem trimR_eq_of_cleanEnd (l : List Char) (h : cleanEnd l) : trimR l = l := by
  unfold trimR
  cases hrev : l.reverse with
  | nil => rw [List.reverse_eq_nil_iff.mp hrev]; rfl
  | cons d tl =>
      have hd : l.getLast? = some d := by
        rw [← List.head?_reverse, hrev, List.head?_cons]
      rw [List.dropWhile_cons, h d hd]
      simp [← hrev]

/-- Right trimming ignores an all-whitespace suffix. -/
theorem trimR_append_ws (x w : List Char) (hw : ∀ c ∈ w, isJsWs c = true) :
    trimR (x ++ w) = trimR x := by
  unfold trimR
  rw [List.reverse_append, dropWhile_all_append w.reverse x.reverse
    (fun c hc => hw c (List.mem_reverse.mp hc))]

/-- Trimming ignores an all-whitespace suffix. -/
theorem trim_append_ws (l w : List Char) (hw : ∀ c ∈ w, isJsWs c = true) :
    trim (l ++ w) = trim l := by
  by_cases hex : ∃ c ∈ l, isJsWs c = false
  · obtain ⟨h1, -⟩ := dropWhile_append_of_mem l w hex
    unfold trim
    rw [show trimL (l ++ w) = trimL l ++ w from h1]
    exact trimR_append_ws _ _ hw
  · have hall : ∀ c ∈ l, isJsWs c = true := by
      intro c hc
      by_contra hcc
      exact hex ⟨c, hc, by revert hcc; cases isJsWs c <;> simp⟩
    have h1 : trimL (l ++ w) = [] := by
      unfold trimL
      rw [List.dropWhile_eq_nil_iff]
      intro c hc
      rcases List.mem_append.mp hc with h | h
      · exact hall c h
      · exact hw c h
    have h2 : trimL l = [] := by
      unfold trimL
      rw [List.dropWhile_eq_nil_iff]
      exact hall
    unfold trim
    rw [h1, h2]

/-- Trimming ignores a whitespace head. -/
theorem trim_ws_cons (c : Char) (l : List Char) (hc : isJsWs c = true) :
    trim (c :: l) = trim l := by
  unfold trim trimL
  rw [List.dropWhile_cons, hc]
  simp

/-- An empty trim means the list was all whitespace. -/
theorem all_ws_of_trim_eq_nil (s : List Char) (h : trim s = []) :
    ∀ c ∈ s, isJsWs c = true := by
  unfold trim trimR at h
  have h1 : List.dropWhile isJsWs (trimL s).reverse = [] := by
    rwa [List.reverse_eq_nil_iff] at h
  have h2 : ∀ c ∈ trimL s, isJsWs c = true := by
    intro c hc
    exact List.dropWhile_eq_nil_iff.mp h1 c (List.mem_reverse.mpr hc)
  intro c hc
  rw [← List.takeWhile_append_dropWhile isJsWs s] at hc
  rcases List.mem_append.mp hc with h | h
  · exact List.mem_takeWhile_imp h
  · exact h2 c h

/-- A nonempty trim exhibits a non-whitespace character. -/
theorem exists_nonws_of_trim_ne_nil (s : List Char) (h : trim s ≠ []) :
    ∃ c ∈ s, isJsWs c = false := by
  by_contra hex
  refine h (?_ : trim s = [])
  have hall : ∀ c ∈ s, isJsWs c = true := by
    intro c hc
    by_contra hcc
    exact hex ⟨c, hc, by revert hcc; cases isJsWs c <;> simp⟩
  have h2 : trimL s = [] := by
    unfold trimL
    rw [List.dropWhile_eq_nil_iff]
    exact hall
  unfold trim
  rw [h2]
  rfl

/-- Right trimming distributes over an append whose right part has a
non-whitespace character. -/
theorem trimR_append_of_mem (x y : List Char) (h : ∃ c ∈ y, isJsWs c = false) :
    trimR (x ++ y) = x ++ trimR y := by
  unfold trimR
  rw [List.reverse_append]
  obtain ⟨h1, -⟩ := dropWhile_append_of_mem y.reverse x.reverse
    (by obtain ⟨c, hc, hpc⟩ := h; exact ⟨c, List.mem_reverse.mpr hc, hpc⟩)
  rw [h1, List.reverse_append, List.reverse_reverse]

/-- Left trimming distributes over an append whose left part has a
non-whitespace character, and leaves it nonempty. -/
theorem trimL_append_of_mem (x y : List Char) (h : ∃ c ∈ x, isJsWs c = false) :
    trimL (x ++ y) = trimL x ++ y ∧ trimL x ≠ [] :=
  dropWhile_append_of_mem x y h

/-- On a clean-end list, `trim` is just the left trim. -/
theorem trim_eq_trimL (l : List Char) (h : cleanEnd l) : trim l = trimL l := by
  unfold trim
  by_cases hl : trimL l = []
  · rw [hl]; rfl
  · refine trimR_eq_of_cleanEnd _ ?_
    intro d hd
    refine h d ?_
    unfold trimL at hl hd
    have := List.takeWhile_append_dropWhile isJsWs l
    rw [← this, List.getLast?_append_of_ne_nil _ hl]
    exact hd

/-- On a clean-start list, `trim` is just the right trim. -/
theorem trim_eq_trimR (l : List Char) (h : cleanStart l) : trim l = trimR l := by
  unfold trim
  rw [trimL_eq_of_cleanStart l h]

/-! ## Structure of the sentence splitter's output -/

/-- The splitter always produces at least one sentence. -/
theorem splitAux_ne_nil : ∀ (l : List Char) (cur : List Char) (skip : Bool),
    splitAux cur skip l ≠ [] := by
  intro l
  induction l with
  | nil => intro cur skip; rw [splitAux_nil]; exact List.cons_ne_nil _ _
  | cons c rest ih =>
      intro cur skip
      cases skip with
      | true =>
          rw [splitAux_cons_skip]
          by_cases h : isJsWs c = true
          · rw [if_pos h]; exact ih cur true
          · rw [if_neg h]; exact ih [c] false
      | false =>
          rw [splitAux_cons_noskip]
          by_cases h : sentEndHead cur = true ∧ isJsWs c = true
          · rw [if_pos h]; exact List.cons_ne_nil _ _
          · rw [if_neg h]; exact ih (c :: cur) false

/-- The first sentence extends the accumulated prefix. -/
theorem splitAux_head_extends : ∀ (l : List Char) (cur : List Char),
    ∃ w, (splitAux cur false l).head? = some (cur.reverse ++ w) := by
  intro l
  induction l with
  | nil => intro cur; exact ⟨[], by rw [splitAux_nil, List.head?_cons, List.append_nil]⟩
  | cons c rest ih =>
      intro cur
      rw [splitAux_cons_noskip]
      by_cases h : sentEndHead cur = true ∧ isJsWs c = true
      · rw [if_pos h]
        exact ⟨[], by rw [List.head?_cons, List.append_nil]⟩
      · rw [if_neg h]
        obtain ⟨w', hw'⟩ := ih (c :: cur)
        refine ⟨c :: w', ?_⟩
        rw [hw', List.reverse_cons, List.append_assoc]
        rfl

/-- Every emitted sentence except the last is nonempty and ends in `[.!?]`. -/
theorem splitAux_dropLast_punct : ∀ (l : List Char) (cur : List Char) (skip : Bool),
    ∀ s ∈ (splitAux cur skip l).dropLast,
      s ≠ [] ∧ ∃ p, s.getLast? = some p ∧ isSentEnd p = true := by
  intro l
  induction l with
  | nil =>
      intro cur skip s hs
      rw [splitAux_nil, List.dropLast_single] at hs
      exact absurd hs (List.not_mem_nil s)
  | cons c rest ih =>
      intro cur skip s hs
      cases skip with
      | true =>
          rw [splitAux_cons_skip] at hs
          by_cases h : isJsWs c = true
          · rw [if_pos h] at hs; exact ih cur true s hs
          · rw [if_neg h] at hs; exact ih [c] false s hs
      | false =>
          rw [splitAux_cons_noskip] at hs
          by_cases h : sentEndHead cur = true ∧ isJsWs c = true
          · rw [if_pos h, List.dropLast_cons_of_ne_nil (splitAux_ne_nil rest [] true)] at hs
            rcases List.mem_cons.mp hs with rfl | hs'
            · obtain ⟨hhead, -⟩ := h
              cases cur with
              | nil => exact absurd hhead (by rw [sentEndHead]; simp)
              | cons p cur' =>
                  refine ⟨by simp, p, ?_, by simpa [sentEndHead] using hhead⟩
                  rw [List.reverse_cons]
                  exact List.getLast?_concat _
            · exact ih [] true s hs'
          · rw [if_neg h] at hs; exact ih (c :: cur) false s hs

/-- Every sentence after the first starts with a non-whitespace character
(and in skip mode even the first does). -/
theorem splitAux_cleanStart : ∀ l : List Char,
    (∀ s ∈ splitAux [] true l, cleanStart s) ∧
      (∀ cur, ∀ s ∈ (splitAux cur false l).tail, cleanStart s) := by
  intro l
  induction l with
  | nil =>
      constructor
      · intro s hs
        rw [splitAux_nil] at hs
        rcases List.mem_cons.mp hs with rfl | hs'
        · intro d hd; rw [List.reverse_nil] at hd; cases hd
        · exact absurd hs' (List.not_mem_nil s)
      · intro cur s hs
        rw [splitAux_nil] at hs
        exact absurd hs (List.not_mem_nil s)
  | cons c rest ih =>
      constructor
      · intro s hs
        rw [splitAux_cons_skip] at hs
        by_cases h : isJsWs c = true
        · rw [if_pos h] at hs; exact ih.1 s hs
        · rw [if_neg h] at hs
          have hws : isJsWs c = false := by revert h; cases isJsWs c <;> simp
          cases hmem : splitAux [c] false rest with
          | nil => exact absurd hmem (splitAux_ne_nil rest [c] false)
          | cons s0 stail =>
              rw [hmem] at hs
              rcases List.mem_cons.mp hs with rfl | hs'
              · obtain ⟨w, hw⟩ := splitAux_head_extends rest [c]
                rw [hmem, List.head?_cons] at hw
                injection hw with hw'
                have hs0 : s = c :: w := by simpa using hw'
                intro d hd
                rw [hs0, List.head?_cons] at hd
                injection hd with hd'
                rw [← hd']
                exact hws
              · have := ih.2 [c]
                rw [hmem] at this
                exact this s hs'
      · intro cur s hs
        rw [splitAux_cons_noskip] at hs
        by_cases h : sentEndHead cur = true ∧ isJsWs c = true
        · rw [if_pos h] at hs
          rw [List.tail_cons] at hs
          exact ih.1 s hs
        · rw [if_neg h] at hs
          exact ih.2 (c :: cur) s hs

/-- A punctuation ending gives a clean end. -/
theorem cleanEnd_of_punct {s : List Char}
    (h : ∃ p, s.getLast? = some p ∧ isSentEnd p = true) : cleanEnd s := by
  obtain ⟨p, hp, hsp⟩ := h
  intro d hd
  rw [hp] at hd
  injection hd with h'
  rw [← h']
  exact punct_not_ws hsp

/-! ## Structure of the greedy chunker -/

/-- Appending to a nonempty chunk inserts one space. -/
theorem joinStep_ne_nil_eq (cur s : List Char) (h : cur ≠ []) :
    joinStep cur s = cur ++ ' ' :: s := by
  unfold joinStep
  rw [if_neg (by rw [List.isEmpty_eq_false.mpr h]; exact Bool.false_ne_true)]

/-- The chunker never loses a current chunk holding a non-whitespace
character. -/
theorem chunkGo_ne_nil (minC maxC : Nat) :
    ∀ (sents : List (List Char)) (cur : List Char),
      (∃ c ∈ cur, isJsWs c = false) → chunkGo minC maxC sents cur ≠ [] := by
  intro sents
  induction sents with
  | nil =>
      intro cur h
      have htne : trim cur ≠ [] := by
        intro he
        obtain ⟨c, hc, hpc⟩ := h
        rw [all_ws_of_trim_eq_nil cur he c hc] at hpc
        cases hpc
      rw [chunkGo_nil_of_ne _ _ _ htne]
      exact List.cons_ne_nil _ _
  | cons s rest ih =>
      intro cur h
      by_cases hp : maxC < cur.length + s.length ∧ minC ≤ cur.length
      · rw [chunkGo_cons_push _ _ _ _ _ hp]
        exact List.cons_ne_nil _ _
      · rw [chunkGo_cons_join _ _ _ _ _ hp]
        refine ih (joinStep cur s) ?_
        obtain ⟨c, hc, hpc⟩ := h
        have hcur : cur ≠ [] := by rintro rfl; exact absurd hc (List.not_mem_nil c)
        rw [joinStep_ne_nil_eq _ _ hcur]
        exact ⟨c, List.mem_append.mpr (Or.inl hc), hpc⟩

/-- The emitted chunks are exactly the accumulated groups, trimmed. -/
theorem chunkGo_eq_map_trim (minC maxC : Nat) :
    ∀ (sents : List (List Char)) (cur : List Char),
      chunkGo minC maxC sents cur = (chunkPre minC maxC sents cur).map trim := by
  intro sents
  induction sents with
  | nil =>
      intro cur
      rw [chunkGo, chunkPre]
      by_cases h : (trim cur).isEmpty
      · rw [if_pos h, if_pos h]; rfl
      · rw [if_neg h, if_neg h]; rfl
  | cons s rest ih =>
      intro cur
      rw [chunkGo, chunkPre]
      by_cases h : maxC < cur.length + s.length ∧ minC ≤ cur.length
      · rw [if_pos h, if_pos h, List.map_cons, ih]
      · rw [if_neg h, if_neg h, ih]

/-- Every non-terminal group reached at least `chunkMinChars` before the
trim: the greedy rule closes a chunk only once the minimum is met. -/
theorem chunkPre_dropLast_min (minC maxC : Nat) :
    ∀ (sents : List (List Char)) (cur : List Char),
      ∀ g ∈ (chunkPre minC maxC sents cur).dropLast, minC ≤ g.length := by
  intro sents
  induction sents with
  | nil =>
      intro cur g hg
      rw [chunkPre] at hg
      by_cases h : (trim cur).isEmpty
      · rw [if_pos h] at hg
        exact absurd hg (List.not_mem_nil g)
      · rw [if_neg h, List.dropLast_single] at hg
        exact absurd hg (List.not_mem_nil g)
  | cons s rest ih =>
      intro cur g hg
      rw [chunkPre] at hg
      by_cases h : maxC < cur.length + s.length ∧ minC ≤ cur.length
      · rw [if_pos h] at hg
        cases hrec : chunkPre minC maxC rest s with
        | nil => rw [hrec, List.dropLast_single] at hg; exact absurd hg (List.not_mem_nil g)
        | cons r0 rtail =>
            rw [hrec, List.dropLast_cons_of_ne_nil (List.cons_ne_nil r0 rtail)] at hg
            rcases List.mem_cons.mp hg with rfl | hg'
            · exact h.2
            · have := ih s g
              rw [hrec] at this
              exact this hg'
      · rw [if_neg h] at hg
        exact ih (joinStep cur s) g hg

/-- Trimming never lengthens a list. -/
theorem trim_length_le (l : List Char) : (trim l).length ≤ l.length := by
  have h1 : ∀ m : List Char, (List.dropWhile isJsWs m).length ≤ m.length := by
    intro m
    induction m with
    | nil => exact Nat.le_refl 0
    | cons c m' ih =>
        rw [List.dropWhile_cons]
        by_cases h : isJsWs c = true
        · rw [if_pos h]
          exact Nat.le_trans ih (Nat.le_succ _)
        · rw [if_neg h]

  calc (trim l).length
      = (List.dropWhile isJsWs (trimL l).reverse).length := by
        unfold trim trimR
        rw [List.length_reverse]
    _ ≤ (trimL l).reverse.length := h1 _
    _ = (trimL l).length := List.length_reverse _
    _ ≤ l.length := h1 l

/-- Every chunk the greedy loop can emit is bounded by
`max (chunkMaxChars + 1) (chunkMinChars + 1 + longest sentence)`. -/
theorem chunkGo_length_bound (minC maxC M : Nat) :
    ∀ (sents : List (List Char)) (cur : List Char),
      (∀ s ∈ sents, s.length ≤ M) →
      cur.length ≤ Nat.max (maxC + 1) (minC + 1 + M) →
      ∀ c ∈ chunkGo minC maxC sents cur,
        c.length ≤ Nat.max (maxC + 1) (minC + 1 + M) := by
  intro sents
  induction sents with
  | nil =>
      intro cur _ hcur c hc
      rw [chunkGo] at hc
      by_cases h : (trim cur).isEmpty
      · rw [if_pos h] at hc
        exact absurd hc (List.not_mem_nil c)
      · rw [if_neg h] at hc
        rcases List.mem_cons.mp hc with rfl | hc'
        · exact Nat.le_trans (trim_length_le cur) hcur
        · exact absurd hc' (List.not_mem_nil c)
  | cons s rest ih =>
      intro cur hs hcur c hc
      have hsM : s.length ≤ M := hs s (List.mem_cons_self s rest)
      have hrest : ∀ x ∈ rest, x.length ≤ M := fun x hx => hs x (List.mem_cons_of_mem s hx)
      rw [chunkGo] at hc
      by_cases h : maxC < cur.length + s.length ∧ minC ≤ cur.length
      · rw [if_pos h] at hc
        rcases List.mem_cons.mp hc with rfl | hc'
        · exact Nat.le_trans (trim_length_le cur) hcur
        · refine ih s hrest ?_ c hc'
          calc s.length ≤ M := hsM
            _ ≤ minC + 1 + M := by omega
            _ ≤ Nat.max (maxC + 1) (minC + 1 + M) := Nat.le_max_right _ _
      · rw [if_neg h] at hc
        refine ih (joinStep cur s) hrest ?_ c hc
        by_cases hcure : cur = []
        · rw [hcure, joinStep_nil]
          calc s.length ≤ M := hsM
            _ ≤ minC + 1 + M := by omega
            _ ≤ Nat.max (maxC + 1) (minC + 1 + M) := Nat.le_max_right _ _
        · rw [joinStep_ne_nil_eq _ _ hcure]
          have hlen : (cur ++ ' ' :: s).length = cur.length + 1 + s.length := by
            rw [List.length_append, List.length_cons]
            omega
          rw [hlen]
          rcases Nat.lt_or_ge cur.length minC with hlt | hge
          · calc cur.length + 1 + s.length ≤ (minC - 1) + 1 + M := by omega
              _ ≤ minC + 1 + M := by omega
              _ ≤ Nat.max (maxC + 1) (minC + 1 + M) := Nat.le_max_right _ _
          · have hle : cur.length + s.length ≤ maxC := by
              by_contra hgt
              exact h ⟨by omega, hge⟩
            calc cur.length + 1 + s.length ≤ maxC + 1 := by omega
              _ ≤ Nat.max (maxC + 1) (minC + 1 + M) := Nat.le_max_left _ _

/-- Sentences are bounded by `maxLen`. -/
theorem length_le_maxLen : ∀ (l : List (List Char)) (s : List Char), s ∈ l →
    s.length ≤ maxLen l := by
  intro l
  induction l with
  | nil => intro s hs; exact absurd hs (List.not_mem_nil s)
  | cons a rest ih =>
      intro s hs
      rw [maxLen]
      rcases List.mem_cons.mp hs with rfl | hs'
      · exact Nat.le_max_left _ _
      · exact Nat.le_trans (ih s hs') (Nat.le_max_right _ _)

/-- Gluing with spaces, cons form. -/
theorem joinSp_cons_ne_nil (a : List Char) (l : List (List Char)) (h : l ≠ []) :
    joinSp (a :: l) = a ++ ' ' :: joinSp l := by
  cases l with
  | nil => exact absurd rfl h
  | cons b l' => rfl

/-- `joinSp` in terms of `preSp`. -/
theorem joinSp_eq_append_preSp : ∀ (a : List Char) (l : List (List Char)),
    joinSp (a :: l) = a ++ preSp l := by
  intro a l
  induction l generalizing a with
  | nil => rw [joinSp, preSp, List.append_nil]
  | cons b l' ih =>
      rw [joinSp_cons_ne_nil a (b :: l') (List.cons_ne_nil b l'), ih b, preSp]

/-- A nonempty clean-end list contains a non-whitespace character. -/
theorem exists_nonws_of_cleanEnd (l : List Char) (hne : l ≠ []) (h : cleanEnd l) :
    ∃ c ∈ l, isJsWs c = false := by
  cases hrev : l.reverse with
  | nil => exact absurd (List.reverse_eq_nil_iff.mp hrev) hne
  | cons d tl =>
      have hd : l.getLast? = some d := by
        rw [← List.head?_reverse, hrev, List.head?_cons]
      refine ⟨d, ?_, h d hd⟩
      rw [← List.mem_reverse, hrev]
      exact List.mem_cons_self d tl

/-- The gluing step of the coverage argument: pulling a closed chunk out of
the trim of the whole tail. -/
theorem trim_push_eq (cur Z : List Char) (hcur : ∃ c ∈ cur, isJsWs c = false)
    (hce : cleanEnd cur) (hZc : cleanStart Z) (hZn : ∃ c ∈ Z, isJsWs c = false) :
    trim cur ++ ' ' :: trim Z = trim (cur ++ ' ' :: Z) := by
  have hZn' : ∃ c ∈ (' ' :: Z), isJsWs c = false := by
    obtain ⟨c, hc, hpc⟩ := hZn
    exact ⟨c, List.mem_cons_of_mem _ hc, hpc⟩
  have hsingle : trimR (' ' :: Z) = ' ' :: trimR Z := by
    have := trimR_append_of_mem [' '] Z hZn
    rwa [List.singleton_append] at this
  calc trim cur ++ ' ' :: trim Z
      = trimL cur ++ ' ' :: trimR Z := by
        rw [trim_eq_trimL cur hce, trim_eq_trimR Z hZc]
    _ = trimL cur ++ trimR (' ' :: Z) := by rw [hsingle]
    _ = trimR (trimL cur ++ ' ' :: Z) := (trimR_append_of_mem _ _ hZn').symm
    _ = trimR (trimL (cur ++ ' ' :: Z)) := by
        rw [(trimL_append_of_mem cur (' ' :: Z) hcur).1]
    _ = trim (cur ++ ' ' :: Z) := rfl

/-- Coverage of the greedy loop: the chunks glued with single spaces equal
the trim of the current chunk glued onto the remaining sentences.  The
hypotheses hold for every sentence list produced by `splitSentences`. -/
theorem chunkGo_coverage (minC maxC : Nat) (hmin : 1 ≤ minC) :
    ∀ (sents : List (List Char)) (cur : List Char),
      (∀ s ∈ sents, cleanStart s) →
      (∀ s ∈ sents.dropLast, s ≠ [] ∧ cleanEnd s) →
      (sents ≠ [] → cur ≠ [] → cleanEnd cur) →
      joinSp (chunkGo minC maxC sents cur) = trim (cur ++ preSp sents) := by
  intro sents
  induction sents with
  | nil =>
      intro cur _ _ _
      rw [preSp, List.append_nil]
      by_cases h : trim cur = []
      · rw [chunkGo, if_pos (by rw [List.isEmpty_iff]; exact h), joinSp, h]
      · rw [chunkGo_nil_of_ne _ _ _ h, joinSp]
  | cons s rest ih =>
      intro cur h1 h2 hcur
      have hs_clean : cleanStart s := h1 s (List.mem_cons_self s rest)
      have h1' : ∀ x ∈ rest, cleanStart x := fun x hx => h1 x (List.mem_cons_of_mem s hx)
      rw [preSp]
      by_cases hp : maxC < cur.length + s.length ∧ minC ≤ cur.length
      · have hcne : cur ≠ [] := by
          refine List.ne_nil_of_length_pos ?_
          have := hp.2
          omega
        have hce : cleanEnd cur := hcur (List.cons_ne_nil s rest) hcne
        have hcur_nonws : ∃ c ∈ cur, isJsWs c = false :=
          exists_nonws_of_cleanEnd cur hcne hce
        rw [chunkGo_cons_push _ _ _ _ _ hp]
        cases rest with
        | nil =>
            rw [preSp, List.append_nil]
            by_cases hts : trim s = []
            · have hgone : chunkGo minC maxC [] s = [] := by
                rw [chunkGo, if_pos (by rw [List.isEmpty_iff]; exact hts)]
              have hws : ∀ c ∈ (' ' :: s), isJsWs c = true := by
                intro c hc
                rcases List.mem_cons.mp hc with rfl | hc'
                · rfl
                · exact all_ws_of_trim_eq_nil s hts c hc'
              rw [hgone, trim_append_ws cur (' ' :: s) hws, joinSp]
            · rw [chunkGo_nil_of_ne _ _ _ hts]
              have hjoin : joinSp [trim cur, trim s] = trim cur ++ ' ' :: trim s := by
                rw [joinSp_cons_ne_nil _ _ (List.cons_ne_nil _ _), joinSp]
              rw [hjoin]
              exact trim_push_eq cur s hcur_nonws hce hs_clean
                (exists_nonws_of_trim_ne_nil s hts)
        | cons s2 rest2 =>
            have hdl : (s :: s2 :: rest2).dropLast = s :: (s2 :: rest2).dropLast :=
              List.dropLast_cons_of_ne_nil (List.cons_ne_nil s2 rest2)
            have hs_in : s ∈ (s :: s2 :: rest2).dropLast := by
              rw [hdl]
              exact List.mem_cons_self _ _
            obtain ⟨hsne, hsce⟩ := h2 s hs_in
            have hsnonws : ∃ c ∈ s, isJsWs c = false :=
              exists_nonws_of_cleanEnd s hsne hsce
            have h2' : ∀ x ∈ (s2 :: rest2).dropLast, x ≠ [] ∧ cleanEnd x := by
              intro x hx
              refine h2 x ?_
              rw [hdl]
              exact List.mem_cons_of_mem s hx
            have IH := ih s h1' h2' (fun _ _ => hsce)
            have hchne : chunkGo minC maxC (s2 :: rest2) s ≠ [] :=
              chunkGo_ne_nil _ _ _ _ hsnonws
            rw [joinSp_cons_ne_nil _ _ hchne, IH]
            have hZclean : cleanStart (s ++ preSp (s2 :: rest2)) := by
              intro d hd
              cases s with
              | nil => exact absurd rfl hsne
              | cons e s' =>
                  rw [List.cons_append, List.head?_cons] at hd
                  injection hd with hd'
                  rw [← hd']
                  exact hs_clean e List.head?_cons
            have hZnonws : ∃ c ∈ (s ++ preSp (s2 :: rest2)), isJsWs c = false := by
              obtain ⟨c, hc, hpc⟩ := hsnonws
              exact ⟨c, List.mem_append.mpr (Or.inl hc), hpc⟩
            exact trim_push_eq cur (s ++ preSp (s2 :: rest2)) hcur_nonws hce hZclean hZnonws
      · rw [chunkGo_cons_join _ _ _ _ _ hp]
        have hcurnew : rest ≠ [] → cleanEnd (joinStep cur s) := by
          intro hrne
          have hs_in : s ∈ (s :: rest).dropLast := by
            rw [List.dropLast_cons_of_ne_nil hrne]
            exact List.mem_cons_self _ _
          obtain ⟨hsne, hsce⟩ := h2 s hs_in
          by_cases hcure : cur = []
          · rw [hcure, joinStep_nil]
            exact hsce
          · rw [joinStep_ne_nil_eq _ _ hcure]
            intro d hd
            refine hsce d ?_
            rw [show cur ++ ' ' :: s = (cur ++ [' ']) ++ s by
              rw [List.append_assoc, List.singleton_append]] at hd
            rwa [List.getLast?_append_of_ne_nil _ hsne] at hd
        have h2'' : ∀ x ∈ rest.dropLast, x ≠ [] ∧ cleanEnd x := by
          intro x hx
          cases rest with
          | nil =>
              rw [List.dropLast_nil] at hx
              exact absurd hx (List.not_mem_nil x)
          | cons r rs =>
              refine h2 x ?_
              rw [List.dropLast_cons_of_ne_nil (List.cons_ne_nil r rs)]
              exact List.mem_cons_of_mem s hx
        have IH := ih (joinStep cur s) h1' h2'' (fun hrne _ => hcurnew hrne)
        rw [IH]
        by_cases hcure : cur = []
        · rw [hcure, joinStep_nil, List.nil_append,
            trim_ws_cons ' ' (s ++ preSp rest) rfl]
        · rw [joinStep_ne_nil_eq _ _ hcure, List.append_assoc, List.cons_append]

/-- C5 (amended): for every transcript longer than `maxChars`,
`chunkTranscript` splits at sentence boundaries and greedy-packs so that
(i) the chunks cover the input — their concatenation with single spaces
equals the sentence sequence rejoined with single spaces and trimmed of edge
whitespace; (ii) each chunk is the `.trim()` of an accumulated sentence
group; (iii) every non-terminal group reaches at least `chunkMinChars`
BEFORE trimming (trimming can take the emitted chunk below `chunkMinChars`);
and (iv) chunk lengths are bounded by
`max (chunkMaxChars + 1) (chunkMinChars + 1 + longest sentence)` — a chunk
may exceed `chunkMaxChars` (see the counterexample). -/
theorem c5_chunk_cover_amended (t : List Char)
    (hlong : config.transcript.maxChars < t.length) :
    joinSp (chunkTranscript t) = trim (joinSp (splitSentences t)) ∧
      chunkTranscript t =
        (chunkPre config.transcript.chunkMinChars config.transcript.chunkMaxChars
          (splitSentences t) []).map trim ∧
      (∀ g ∈ (chunkPre config.transcript.chunkMinChars config.transcript.chunkMaxChars
          (splitSentences t) []).dropLast, config.transcript.chunkMinChars ≤ g.length) ∧
      (∀ c ∈ chunkTranscript t,
        c.length ≤ Nat.max (config.transcript.chunkMaxChars + 1)
          (config.transcript.chunkMinChars + 1 + maxLen (splitSentences t))) := by
  have hchunk : chunkTranscript t =
      chunkGo config.transcript.chunkMinChars config.transcript.chunkMaxChars
        (splitSentences t) [] := by
    rw [chunkTranscript, if_neg (by omega)]
  have hpunct := splitAux_dropLast_punct t [] false
  have hclean := (splitAux_cleanStart t).2 []
  refine ⟨?_, ?_, ?_, ?_⟩
  · cases heq : splitSentences t with
    | nil => exact absurd heq (splitAux_ne_nil t [] false)
    | cons s1 rest =>
        have htail : ∀ s ∈ rest, cleanStart s := by
          intro s hs
          refine hclean s ?_
          show s ∈ (splitAux [] false t).tail
          rw [show splitAux [] false t = s1 :: rest from heq, List.tail_cons]
          exact hs
        have hdrop : ∀ s ∈ (s1 :: rest).dropLast,
            s ≠ [] ∧ ∃ p, s.getLast? = some p ∧ isSentEnd p = true := by
          intro s hs
          refine hpunct s ?_
          show s ∈ (splitAux [] false t).dropLast
          rw [show splitAux [] false t = s1 :: rest from heq]
          exact hs
        have h2 : ∀ s ∈ rest.dropLast, s ≠ [] ∧ cleanEnd s := by
          intro s hs
          cases rest with
          | nil =>
              rw [List.dropLast_nil] at hs
              exact absurd hs (List.not_mem_nil s)
          | cons r rs =>
              have hs' : s ∈ (s1 :: r :: rs).dropLast := by
                rw [List.dropLast_cons_of_ne_nil (List.cons_ne_nil r rs)]
                exact List.mem_cons_of_mem s1 hs
              obtain ⟨hne, hp⟩ := hdrop s hs'
              exact ⟨hne, cleanEnd_of_punct hp⟩
        have hcur : rest ≠ [] → (s1 : List Char) ≠ [] → cleanEnd s1 := by
          intro hrne _
          have hs' : s1 ∈ (s1 :: rest).dropLast := by
            cases rest with
            | nil => exact absurd rfl hrne
            | cons r rs =>
                rw [List.dropLast_cons_of_ne_nil (List.cons_ne_nil r rs)]
                exact List.mem_cons_self _ _
          obtain ⟨-, hp⟩ := hdrop s1 hs'
          exact cleanEnd_of_punct hp
        rw [hchunk, heq]
        rw [chunkGo_cons_join _ _ _ _ _ (by rintro ⟨-, habs⟩; revert habs; decide)]
        rw [joinStep_nil]
        rw [chunkGo_coverage _ _ (by decide) rest s1 htail h2 hcur]
        rw [joinSp_eq_append_preSp]
  · rw [hchunk]
    exact chunkGo_eq_map_trim _ _ _ _
  · exact chunkPre_dropLast_min _ _ _ _
  · rw [hchunk]
    exact chunkGo_length_bound _ _ _ _ []
      (fun s hs => length_le_maxLen _ s hs) (Nat.zero_le _)

/-- Witness for C5's amended theorem at the concrete transcript `exLongMix`
(132002 characters, two sentences). -/
theorem c5_chunk_cover_amended_witness :
    config.transcript.maxChars < exLongMix.length ∧
      (joinSp (chunkTranscript exLongMix) = trim (joinSp (splitSentences exLongMix)) ∧
        chunkTranscript exLongMix =
          (chunkPre config.transcript.chunkMinChars config.transcript.chunkMaxChars
            (splitSentences exLongMix) []).map trim ∧
        (∀ g ∈ (chunkPre config.transcript.chunkMinChars config.transcript.chunkMaxChars
            (splitSentences exLongMix) []).dropLast,
          config.transcript.chunkMinChars ≤ g.length) ∧
        (∀ c ∈ chunkTranscript exLongMix,
          c.length ≤ Nat.max (config.transcript.chunkMaxChars + 1)
            (config.transcript.chunkMinChars + 1 + maxLen (splitSentences exLongMix)))) :=
  have hlen : config.transcript.maxChars < exLongMix.length := by
    have h : exLongMix.length = 132002 := by
      simp only [exLongMix, List.length_append, List.length_replicate, List.length_cons,
        List.length_nil]
    rw [h]
    decide
  ⟨hlen, c5_chunk_cover_amended exLongMix hlen⟩

end YouSummary
